import Mathlib

/-!
A shallow embedding of the `go-mysql/slowlog` package (slow-log parser and
aggregator) together with proofs about its specification.

Modelling conventions:
* Go strings are modelled as `List Char` (`GoStr`).  The slow logs handled by
  the package are ASCII, where Go's byte indexing (`len`, slicing) coincides
  with character indexing.
* Go `float64` metric values are modelled as exact rationals `ℚ` (the
  float32/float64 rounding performed by `strconv.ParseFloat` is not modelled;
  the log values appearing in the claims are exactly representable).
* Go `uint64`/`uint` values are modelled as `Nat`.
* Go maps are modelled as association lists built by in-place update
  (`alupd`); iteration order of Go maps is irrelevant to every property
  proved here because map entries are updated pointwise.
-/

set_option maxRecDepth 10000

abbrev GoStr := List Char

namespace Slowlog

/-- `str s` is the `GoStr` of a Lean string literal. -/
def str (s : String) : GoStr := s.toList

/-- Association-list lookup, modelling Go `m[k]` with its `ok` flag. -/
def alookup {V : Type} : List (GoStr × V) → GoStr → Option V
  | [], _ => none
  | (k, v) :: rest, key => if k = key then some v else alookup rest key

/-- Association-list update, modelling Go `m[k] = f(m[k])`: the entry is
replaced in place when present and appended when absent. -/
def alupd {V : Type} : List (GoStr × V) → GoStr → (Option V → V) → List (GoStr × V)
  | [], k, f => [(k, f none)]
  | (k', v) :: rest, k, f =>
    if k' = k then (k, f (some v)) :: rest else (k', v) :: alupd rest k f

theorem alookup_alupd_self {V : Type} (m : List (GoStr × V)) (k : GoStr) (f : Option V → V) :
    alookup (alupd m k f) k = some (f (alookup m k)) := by
  induction m with
  | nil => simp [alookup, alupd]
  | cons kv rest ih =>
    obtain ⟨k', v⟩ := kv
    by_cases h : k' = k
    · subst h
      simp [alookup, alupd]
    · simp [alookup, alupd, h, ih]

theorem alookup_alupd_other {V : Type} (m : List (GoStr × V)) (k j : GoStr) (f : Option V → V)
    (h : j ≠ k) : alookup (alupd m k f) j = alookup m j := by
  have h' : ¬ (k = j) := fun hh => h hh.symm
  induction m with
  | nil => simp [alookup, alupd, h']
  | cons kv rest ih =>
    obtain ⟨k', v⟩ := kv
    by_cases hk : k' = k
    · subst hk
      simp [alookup, alupd, h']
    · by_cases hj : k' = j
      · subst hj
        simp [alookup, alupd, h, hk]
      · simp [alookup, alupd, hk, hj, ih]

/-! ### Metric statistics (`metrics.go`) -/

/-- `TimeStats` of `metrics.go`: microsecond-based metrics such as
`Query_time`; `float64` values are modelled as `ℚ`. -/
structure TimeStats where
  vals : List ℚ
  Sum : ℚ
  Min : ℚ
  Avg : ℚ
  Med : ℚ
  P95 : ℚ
  Max : ℚ
  outlierSum : ℚ
  deriving DecidableEq

/-- `NumberStats` of `metrics.go`: integer-based metrics such as `Rows_sent`. -/
structure NumberStats where
  vals : List Nat
  Sum : Nat
  Min : Nat
  Avg : Nat
  Med : Nat
  P95 : Nat
  Max : Nat
  outlierSum : Nat
  deriving DecidableEq

/-- `BoolStats` of `metrics.go`. -/
structure BoolStats where
  Sum : Nat
  outlierSum : Nat
  deriving DecidableEq

def newTimeStats : TimeStats := ⟨[], 0, 0, 0, 0, 0, 0, 0⟩

def newNumberStats : NumberStats := ⟨[], 0, 0, 0, 0, 0, 0, 0⟩

def newBoolStats : BoolStats := ⟨0, 0⟩

/-- One iteration of the `TimeMetrics` loop body of `Metrics.AddEvent`. -/
def TimeStats.add (s : TimeStats) (val : ℚ) (outlier : Bool) : TimeStats :=
  let s := if outlier then { s with outlierSum := s.outlierSum + val }
           else { s with Sum := s.Sum + val }
  { s with vals := s.vals ++ [val] }

/-- One iteration of the `NumberMetrics` loop body of `Metrics.AddEvent`. -/
def NumberStats.add (s : NumberStats) (val : Nat) (outlier : Bool) : NumberStats :=
  let s := if outlier then { s with outlierSum := s.outlierSum + val }
           else { s with Sum := s.Sum + val }
  { s with vals := s.vals ++ [val] }

/-- One iteration of the `BoolMetrics` loop body of `Metrics.AddEvent`:
the counter is bumped only when the value is true. -/
def BoolStats.add (s : BoolStats) (val : Bool) (outlier : Bool) : BoolStats :=
  if val then
    if outlier then { s with outlierSum := s.outlierSum + 1 }
    else { s with Sum := s.Sum + 1 }
  else s

/-- The `Event` value type (`event.go`). -/
structure Event where
  Offset : Nat
  Ts : GoStr
  Admin : Bool
  Query : GoStr
  User : GoStr
  Host : GoStr
  Db : GoStr
  TimeMetrics : List (GoStr × ℚ)
  NumberMetrics : List (GoStr × Nat)
  BoolMetrics : List (GoStr × Bool)
  RateType : GoStr
  RateLimit : Nat
  CommentMetadata : List (GoStr × GoStr)
  deriving DecidableEq

/-- `NewEvent` of `event.go`. -/
def NewEvent : Event :=
  { Offset := 0, Ts := [], Admin := false, Query := [], User := [], Host := [],
    Db := [], TimeMetrics := [], NumberMetrics := [], BoolMetrics := [],
    RateType := [], RateLimit := 0, CommentMetadata := [] }

/-- The `Metrics` collection (`metrics.go`). -/
structure Metrics where
  TimeMetrics : List (GoStr × TimeStats)
  NumberMetrics : List (GoStr × NumberStats)
  BoolMetrics : List (GoStr × BoolStats)
  deriving DecidableEq

def NewMetrics : Metrics := ⟨[], [], []⟩

/-- The `TimeMetrics` loop of `Metrics.AddEvent`: look up the stats record,
creating it on first sight, and accumulate the value. -/
def addTimeEntries (m : List (GoStr × TimeStats)) (entries : List (GoStr × ℚ))
    (outlier : Bool) : List (GoStr × TimeStats) :=
  entries.foldl (fun acc kv => alupd acc kv.1 (fun o => (o.getD newTimeStats).add kv.2 outlier)) m

/-- The `NumberMetrics` loop of `Metrics.AddEvent`. -/
def addNumberEntries (m : List (GoStr × NumberStats)) (entries : List (GoStr × Nat))
    (outlier : Bool) : List (GoStr × NumberStats) :=
  entries.foldl (fun acc kv => alupd acc kv.1 (fun o => (o.getD newNumberStats).add kv.2 outlier)) m

/-- The `BoolMetrics` loop of `Metrics.AddEvent` (the record is created even
when the value is false). -/
def addBoolEntries (m : List (GoStr × BoolStats)) (entries : List (GoStr × Bool))
    (outlier : Bool) : List (GoStr × BoolStats) :=
  entries.foldl (fun acc kv => alupd acc kv.1 (fun o => (o.getD newBoolStats).add kv.2 outlier)) m

/-- `Metrics.AddEvent` of `metrics.go`. -/
def Metrics.addEvent (m : Metrics) (e : Event) (outlier : Bool) : Metrics :=
  { TimeMetrics := addTimeEntries m.TimeMetrics e.TimeMetrics outlier,
    NumberMetrics := addNumberEntries m.NumberMetrics e.NumberMetrics outlier,
    BoolMetrics := addBoolEntries m.BoolMetrics e.BoolMetrics outlier }

/-- Finalization of one `TimeStats` record (`Metrics.Finalize`, time loop).
`R` is the effective rate limit (already defaulted to 1 when 0).
`sort.Float64s` sorts ascending; out-of-range indexing (impossible at
finalize, see the safety claim) is modelled by `getD`. -/
def TimeStats.finalize (R : Nat) (s : TimeStats) : TimeStats :=
  let buf := List.insertionSort (· ≤ ·) s.vals
  let cnt := buf.length
  { vals := buf,
    Min := buf.getD 0 0,
    Avg := (s.Sum + s.outlierSum) / (cnt : ℚ),
    Med := buf.getD ((50 * cnt) / 100) 0,
    P95 := buf.getD ((95 * cnt) / 100) 0,
    Max := buf.getD (cnt - 1) 0,
    Sum := s.Sum * (R : ℚ) + s.outlierSum,
    outlierSum := s.outlierSum }

/-- Finalization of one `NumberStats` record (`Metrics.Finalize`, number
loop); `Avg` uses `uint64` integer division, modelled by `Nat` division. -/
def NumberStats.finalize (R : Nat) (s : NumberStats) : NumberStats :=
  let buf := List.insertionSort (· ≤ ·) s.vals
  let cnt := buf.length
  { vals := buf,
    Min := buf.getD 0 0,
    Avg := (s.Sum + s.outlierSum) / cnt,
    Med := buf.getD ((50 * cnt) / 100) 0,
    P95 := buf.getD ((95 * cnt) / 100) 0,
    Max := buf.getD (cnt - 1) 0,
    Sum := s.Sum * R + s.outlierSum,
    outlierSum := s.outlierSum }

/-- Finalization of one `BoolStats` record. -/
def BoolStats.finalize (R : Nat) (s : BoolStats) : BoolStats :=
  { s with Sum := s.Sum * R + s.outlierSum }

/-- `Metrics.Finalize` of `metrics.go`.  (When no bool metrics exist Go sets
the map to `nil`; both states are the empty association list here.) -/
def Metrics.finalize (m : Metrics) (rateLimit : Nat) : Metrics :=
  let R := if rateLimit = 0 then 1 else rateLimit
  { TimeMetrics := m.TimeMetrics.map (fun kv => (kv.1, kv.2.finalize R)),
    NumberMetrics := m.NumberMetrics.map (fun kv => (kv.1, kv.2.finalize R)),
    BoolMetrics := m.BoolMetrics.map (fun kv => (kv.1, kv.2.finalize R)) }

/-- A `Metrics` built from a sequence of `AddEvent` calls. -/
def buildMetrics (es : List (Event × Bool)) : Metrics :=
  es.foldl (fun m p => m.addEvent p.1 p.2) NewMetrics

/-! ### Classes (`class.go`) -/

/-- `MAX_EXAMPLE_BYTES` of `class.go`. -/
def MAX_EXAMPLE_BYTES : Nat := 1024 * 10

/-- The `Example` struct of `class.go`. -/
structure Example where
  QueryTime : ℚ
  Db : GoStr
  Query : GoStr
  Ts : GoStr
  deriving DecidableEq

/-- The `Class` struct of `class.go`.  `Example` is an `Option` because
`Class.Finalize` sets the pointer to `nil` when no example was recorded. -/
structure Class where
  Id : GoStr
  Fingerprint : GoStr
  Metrics : Metrics
  TotalQueries : Nat
  UniqueQueries : Nat
  Example : Option Example
  outliers : Nat
  lastDb : GoStr
  sample : Bool
  maxQueryTime : ℚ
  MaxQueryCommentMetadata : List (GoStr × GoStr)
  deriving DecidableEq

/-- `NewClass` of `class.go`. -/
def NewClass (id fingerprint : GoStr) (sample : Bool) : Class :=
  { Id := id, Fingerprint := fingerprint, Metrics := NewMetrics, TotalQueries := 0,
    UniqueQueries := 0, Example := some ⟨0, [], [], []⟩, outliers := 0,
    lastDb := [], sample := sample, maxQueryTime := 0, MaxQueryCommentMetadata := [] }

/-- The sampling block of `Class.AddEvent` (`class.go` lines 71–88): when
the class samples and the event's `Query_time` exceeds the current
example's, replace the example, truncating over-long query text.
(Pre-finalize `c.Example` is always present; the `none` case is unreachable
in the modelled lifecycle, where events are only added before finalize.) -/
def Class.sampleUpdate (c : Class) (e : Event) : Class :=
  if c.sample then
    match alookup e.TimeMetrics (str "Query_time"), c.Example with
    | some n, some ex =>
      if n > ex.QueryTime then
        let ex' : Slowlog.Example :=
          { QueryTime := n,
            Db := if e.Db ≠ [] then e.Db else c.lastDb,
            Query := if e.Query.length > MAX_EXAMPLE_BYTES then
                       e.Query.take (MAX_EXAMPLE_BYTES - 3) ++ str "..."
                     else e.Query,
            Ts := e.Ts }
        { c with Example := some ex' }
      else c
    | _, _ => c
  else c

/-- The `MaxQueryCommentMetadata` block of `Class.AddEvent` (`class.go`
lines 90–94), including the comparison against the never-updated
`maxQueryTime` field. -/
def Class.metaUpdate (c : Class) (e : Event) : Class :=
  match alookup e.TimeMetrics (str "Query_time") with
  | some queryTime =>
    if queryTime > c.maxQueryTime then
      { c with MaxQueryCommentMetadata := e.CommentMetadata }
    else c
  | none => c

/-- `Class.AddEvent` of `class.go`, lines 57–96. -/
def Class.addEvent (c : Class) (e : Event) (outlier : Bool) : Class :=
  let c := if outlier then { c with outliers := c.outliers + 1 }
           else { c with TotalQueries := c.TotalQueries + 1 }
  let c := { c with Metrics := c.Metrics.addEvent e outlier }
  let c := if e.Db ≠ [] then { c with lastDb := e.Db } else c
  let c := c.sampleUpdate e
  c.metaUpdate e

/-- `Class.Finalize` of `class.go`. -/
def Class.finalize (c : Class) (rateLimit : Nat) : Class :=
  let R := if rateLimit = 0 then 1 else rateLimit
  let c := { c with Metrics := c.Metrics.finalize R,
                    TotalQueries := c.TotalQueries * R + c.outliers }
  match c.Example with
  | some ex => if ex.QueryTime = 0 then { c with Example := none } else c
  | none => c

/-! ### Aggregator (`aggregator.go`) -/

/-- The `Result` struct of `aggregator.go` (`Error` is unused by the
aggregator itself and omitted). -/
structure Result where
  Global : Class
  Classes : List (GoStr × Class)
  RateLimit : Nat
  deriving DecidableEq

/-- The `Aggregator` struct of `aggregator.go`.  `utcOffset` only affects the
re-encoding of `Example.Ts` at finalize (a `time` library call), which is
not modelled; no claim concerns it. -/
structure Aggregator where
  samples : Bool
  outlierTime : ℚ
  global : Class
  classes : List (GoStr × Class)
  rateLimit : Nat
  deriving DecidableEq

/-- `NewAggregator` of `aggregator.go`. -/
def NewAggregator (samples : Bool) (outlierTime : ℚ) : Aggregator :=
  { samples := samples, outlierTime := outlierTime,
    global := NewClass [] [] false, classes := [], rateLimit := 0 }

/-- The outlier test of `Aggregator.AddEvent`: `outlierTime > 0` and the
event's `Query_time` (0 when absent, as for a Go map read) exceeds it. -/
def isOutlierEvent (outlierTime : ℚ) (e : Event) : Bool :=
  decide (0 < outlierTime) &&
    decide (outlierTime < (alookup e.TimeMetrics (str "Query_time")).getD 0)

/-- `Aggregator.AddEvent` of `aggregator.go`: track the last rate limit,
decide the outlier flag, route to the global class, then to the per-id
class (created on demand). -/
def Aggregator.addEvent (a : Aggregator) (e : Event) (id fingerprint : GoStr) : Aggregator :=
  let a := { a with rateLimit := e.RateLimit }
  let outlier : Bool := isOutlierEvent a.outlierTime e
  let a := { a with global := a.global.addEvent e outlier }
  let upd := fun (o : Option Class) =>
    (o.getD (NewClass id fingerprint a.samples)).addEvent e outlier
  { a with classes := alupd a.classes id upd }

/-- `Aggregator.Finalize` of `aggregator.go`.  The re-encoding of
`Example.Ts` (Go `time.Parse`/`Format`) mutates only that string field and
is not modelled. -/
def Aggregator.finalize (a : Aggregator) : Result :=
  let g := a.global.finalize a.rateLimit
  let g := { g with UniqueQueries := a.classes.length }
  { Global := g,
    Classes := a.classes.map (fun kv =>
      (kv.1, { kv.2.finalize a.rateLimit with UniqueQueries := 1 })),
    RateLimit := a.rateLimit }

/-- An `Aggregator` fed a sequence of `AddEvent` calls. -/
def buildAggregator (samples : Bool) (outlierTime : ℚ)
    (es : List (Event × GoStr × GoStr)) : Aggregator :=
  es.foldl (fun a t => a.addEvent t.1 t.2.1 t.2.2) (NewAggregator samples outlierTime)

/-! ### The history of a single stats record

`projTime name es` is the sequence of `(value, outlier)` pairs that the
`AddEvent` calls in `es` feed into the stats record of metric `name`;
`extendTP` replays them onto a record.  The simulation lemmas below show
that looking `name` up in `buildMetrics es` yields exactly that replay. -/

def projTime (name : GoStr) (es : List (Event × Bool)) : List (ℚ × Bool) :=
  es.flatMap (fun p =>
    (p.1.TimeMetrics.filter (fun kv => kv.1 = name)).map (fun kv => (kv.2, p.2)))

def projNumber (name : GoStr) (es : List (Event × Bool)) : List (Nat × Bool) :=
  es.flatMap (fun p =>
    (p.1.NumberMetrics.filter (fun kv => kv.1 = name)).map (fun kv => (kv.2, p.2)))

def extendTP (s₀ : TimeStats) (l : List (ℚ × Bool)) : TimeStats :=
  l.foldl (fun s p => s.add p.1 p.2) s₀

def extendNP (s₀ : NumberStats) (l : List (Nat × Bool)) : NumberStats :=
  l.foldl (fun s p => s.add p.1 p.2) s₀

def optRecT (base : Option TimeStats) (l : List (ℚ × Bool)) : Option TimeStats :=
  match base with
  | some s => some (extendTP s l)
  | none => if l.isEmpty then none else some (extendTP newTimeStats l)

def optRecN (base : Option NumberStats) (l : List (Nat × Bool)) : Option NumberStats :=
  match base with
  | some s => some (extendNP s l)
  | none => if l.isEmpty then none else some (extendNP newNumberStats l)

def sumNonOutlierT (l : List (ℚ × Bool)) : ℚ :=
  ((l.filter (fun p => !p.2)).map (fun p => p.1)).sum

def sumOutlierT (l : List (ℚ × Bool)) : ℚ :=
  ((l.filter (fun p => p.2)).map (fun p => p.1)).sum

def sumNonOutlierN (l : List (Nat × Bool)) : Nat :=
  ((l.filter (fun p => !p.2)).map (fun p => p.1)).sum

def sumOutlierN (l : List (Nat × Bool)) : Nat :=
  ((l.filter (fun p => p.2)).map (fun p => p.1)).sum

theorem extendTP_nil (s : TimeStats) : extendTP s [] = s := rfl

theorem extendTP_cons (s : TimeStats) (p : ℚ × Bool) (l : List (ℚ × Bool)) :
    extendTP s (p :: l) = extendTP (s.add p.1 p.2) l := rfl

theorem extendNP_nil (s : NumberStats) : extendNP s [] = s := rfl

theorem extendNP_cons (s : NumberStats) (p : Nat × Bool) (l : List (Nat × Bool)) :
    extendNP s (p :: l) = extendNP (s.add p.1 p.2) l := rfl

theorem vals_extendTP (l : List (ℚ × Bool)) (s : TimeStats) :
    (extendTP s l).vals = s.vals ++ l.map (fun p => p.1) := by
  induction l generalizing s with
  | nil => simp [extendTP_nil]
  | cons p l ih =>
    rw [extendTP_cons, ih]
    cases hp : p.2 <;> simp [TimeStats.add, hp]

theorem sum_extendTP (l : List (ℚ × Bool)) (s : TimeStats) :
    (extendTP s l).Sum = s.Sum + sumNonOutlierT l := by
  induction l generalizing s with
  | nil => simp [extendTP_nil, sumNonOutlierT]
  | cons p l ih =>
    rw [extendTP_cons, ih]
    cases hp : p.2 <;> simp [TimeStats.add, hp, sumNonOutlierT] <;> ring

theorem outlierSum_extendTP (l : List (ℚ × Bool)) (s : TimeStats) :
    (extendTP s l).outlierSum = s.outlierSum + sumOutlierT l := by
  induction l generalizing s with
  | nil => simp [extendTP_nil, sumOutlierT]
  | cons p l ih =>
    rw [extendTP_cons, ih]
    cases hp : p.2 <;> simp [TimeStats.add, hp, sumOutlierT] <;> ring

theorem vals_extendNP (l : List (Nat × Bool)) (s : NumberStats) :
    (extendNP s l).vals = s.vals ++ l.map (fun p => p.1) := by
  induction l generalizing s with
  | nil => simp [extendNP_nil]
  | cons p l ih =>
    rw [extendNP_cons, ih]
    cases hp : p.2 <;> simp [NumberStats.add, hp]

theorem sum_extendNP (l : List (Nat × Bool)) (s : NumberStats) :
    (extendNP s l).Sum = s.Sum + sumNonOutlierN l := by
  induction l generalizing s with
  | nil => simp [extendNP_nil, sumNonOutlierN]
  | cons p l ih =>
    rw [extendNP_cons, ih]
    cases hp : p.2 <;> simp [NumberStats.add, hp, sumNonOutlierN] <;> ring

theorem outlierSum_extendNP (l : List (Nat × Bool)) (s : NumberStats) :
    (extendNP s l).outlierSum = s.outlierSum + sumOutlierN l := by
  induction l generalizing s with
  | nil => simp [extendNP_nil, sumOutlierN]
  | cons p l ih =>
    rw [extendNP_cons, ih]
    cases hp : p.2 <;> simp [NumberStats.add, hp, sumOutlierN] <;> ring

theorem optRecT_nil (base : Option TimeStats) : optRecT base [] = base := by
  cases base <;> simp [optRecT, extendTP_nil]

theorem optRecN_nil (base : Option NumberStats) : optRecN base [] = base := by
  cases base <;> simp [optRecN, extendNP_nil]

theorem extendTP_append (s : TimeStats) (l₁ l₂ : List (ℚ × Bool)) :
    extendTP s (l₁ ++ l₂) = extendTP (extendTP s l₁) l₂ := by
  simp [extendTP, List.foldl_append]

theorem extendNP_append (s : NumberStats) (l₁ l₂ : List (Nat × Bool)) :
    extendNP s (l₁ ++ l₂) = extendNP (extendNP s l₁) l₂ := by
  simp [extendNP, List.foldl_append]

theorem optRecT_append (base : Option TimeStats) (l₁ l₂ : List (ℚ × Bool)) :
    optRecT (optRecT base l₁) l₂ = optRecT base (l₁ ++ l₂) := by
  cases base with
  | some s => simp [optRecT, extendTP_append]
  | none =>
    cases l₁ with
    | nil => simp [optRecT]
    | cons p l₁ =>
      simp [optRecT, ← extendTP_append]

theorem optRecN_append (base : Option NumberStats) (l₁ l₂ : List (Nat × Bool)) :
    optRecN (optRecN base l₁) l₂ = optRecN base (l₁ ++ l₂) := by
  cases base with
  | some s => simp [optRecN, extendNP_append]
  | none =>
    cases l₁ with
    | nil => simp [optRecN]
    | cons p l₁ =>
      simp [optRecN, ← extendNP_append]

theorem alookup_addTimeEntries (entries : List (GoStr × ℚ)) (o : Bool)
    (m : List (GoStr × TimeStats)) (name : GoStr) :
    alookup (addTimeEntries m entries o) name =
      optRecT (alookup m name)
        (((entries.filter (fun kv => kv.1 = name)).map (fun kv => kv.2)).map
          (fun v => (v, o))) := by
  induction entries generalizing m with
  | nil => simp [addTimeEntries, optRecT_nil]
  | cons kv rest ih =>
    obtain ⟨k, v⟩ := kv
    have hstep : addTimeEntries m ((k, v) :: rest) o =
        addTimeEntries (alupd m k (fun o' => (o'.getD newTimeStats).add v o)) rest o := rfl
    rw [hstep, ih]
    by_cases hk : k = name
    · subst hk
      rw [alookup_alupd_self]
      cases hm : alookup m k with
      | some s => simp [optRecT, extendTP_cons]
      | none => simp [optRecT, extendTP_cons]
    · rw [alookup_alupd_other _ _ _ _ (fun hh => hk hh.symm)]
      simp [hk]

theorem alookup_addNumberEntries (entries : List (GoStr × Nat)) (o : Bool)
    (m : List (GoStr × NumberStats)) (name : GoStr) :
    alookup (addNumberEntries m entries o) name =
      optRecN (alookup m name)
        (((entries.filter (fun kv => kv.1 = name)).map (fun kv => kv.2)).map
          (fun v => (v, o))) := by
  induction entries generalizing m with
  | nil => simp [addNumberEntries, optRecN_nil]
  | cons kv rest ih =>
    obtain ⟨k, v⟩ := kv
    have hstep : addNumberEntries m ((k, v) :: rest) o =
        addNumberEntries (alupd m k (fun o' => (o'.getD newNumberStats).add v o)) rest o := rfl
    rw [hstep, ih]
    by_cases hk : k = name
    · subst hk
      rw [alookup_alupd_self]
      cases hm : alookup m k with
      | some s => simp [optRecN, extendNP_cons]
      | none => simp [optRecN, extendNP_cons]
    · rw [alookup_alupd_other _ _ _ _ (fun hh => hk hh.symm)]
      simp [hk]

theorem alookup_foldMetrics_time (es : List (Event × Bool)) (name : GoStr) (m : Metrics) :
    alookup ((es.foldl (fun m p => m.addEvent p.1 p.2) m).TimeMetrics) name =
      optRecT (alookup m.TimeMetrics name) (projTime name es) := by
  induction es generalizing m with
  | nil => simp [projTime, optRecT_nil]
  | cons p rest ih =>
    obtain ⟨e, o⟩ := p
    rw [List.foldl_cons, ih]
    show optRecT (alookup (addTimeEntries m.TimeMetrics e.TimeMetrics o) name) _ = _
    rw [alookup_addTimeEntries, optRecT_append]
    simp [projTime, Function.comp_def]

theorem alookup_foldMetrics_number (es : List (Event × Bool)) (name : GoStr) (m : Metrics) :
    alookup ((es.foldl (fun m p => m.addEvent p.1 p.2) m).NumberMetrics) name =
      optRecN (alookup m.NumberMetrics name) (projNumber name es) := by
  induction es generalizing m with
  | nil => simp [projNumber, optRecN_nil]
  | cons p rest ih =>
    obtain ⟨e, o⟩ := p
    rw [List.foldl_cons, ih]
    show optRecN (alookup (addNumberEntries m.NumberMetrics e.NumberMetrics o) name) _ = _
    rw [alookup_addNumberEntries, optRecN_append]
    simp [projNumber, Function.comp_def]

/-- Looking up a time record in a `Metrics` built by `AddEvent` yields
exactly the replay of that metric's value history. -/
theorem alookup_buildMetrics_time (es : List (Event × Bool)) (name : GoStr) :
    alookup (buildMetrics es).TimeMetrics name = optRecT none (projTime name es) :=
  alookup_foldMetrics_time es name NewMetrics

theorem alookup_buildMetrics_number (es : List (Event × Bool)) (name : GoStr) :
    alookup (buildMetrics es).NumberMetrics name = optRecN none (projNumber name es) :=
  alookup_foldMetrics_number es name NewMetrics

/-- A record present in a built `Metrics` is the replay of a non-empty
history. -/
theorem buildMetrics_time_record (es : List (Event × Bool)) (name : GoStr) (s : TimeStats)
    (h : alookup (buildMetrics es).TimeMetrics name = some s) :
    projTime name es ≠ [] ∧ s = extendTP newTimeStats (projTime name es) := by
  rw [alookup_buildMetrics_time] at h
  cases hp : projTime name es with
  | nil => rw [hp] at h; simp [optRecT] at h
  | cons q l =>
    rw [hp] at h
    simp [optRecT] at h
    exact ⟨by simp, h.symm⟩

theorem buildMetrics_number_record (es : List (Event × Bool)) (name : GoStr) (s : NumberStats)
    (h : alookup (buildMetrics es).NumberMetrics name = some s) :
    projNumber name es ≠ [] ∧ s = extendNP newNumberStats (projNumber name es) := by
  rw [alookup_buildMetrics_number] at h
  cases hp : projNumber name es with
  | nil => rw [hp] at h; simp [optRecN] at h
  | cons q l =>
    rw [hp] at h
    simp [optRecN] at h
    exact ⟨by simp, h.symm⟩

theorem alookup_map {V W : Type} (g : V → W) (l : List (GoStr × V)) (name : GoStr) :
    alookup (l.map (fun kv => (kv.1, g kv.2))) name = (alookup l name).map g := by
  induction l with
  | nil => simp [alookup]
  | cons kv rest ih =>
    obtain ⟨k, v⟩ := kv
    by_cases hk : k = name <;> simp [alookup, hk, ih]

theorem alookup_finalize_time (m : Metrics) (R : Nat) (name : GoStr) :
    alookup (m.finalize R).TimeMetrics name =
      (alookup m.TimeMetrics name).map (TimeStats.finalize (if R = 0 then 1 else R)) := by
  simp [Metrics.finalize, alookup_map]

theorem alookup_finalize_number (m : Metrics) (R : Nat) (name : GoStr) :
    alookup (m.finalize R).NumberMetrics name =
      (alookup m.NumberMetrics name).map (NumberStats.finalize (if R = 0 then 1 else R)) := by
  simp [Metrics.finalize, alookup_map]

theorem alookup_finalize_bool (m : Metrics) (R : Nat) (name : GoStr) :
    alookup (m.finalize R).BoolMetrics name =
      (alookup m.BoolMetrics name).map (BoolStats.finalize (if R = 0 then 1 else R)) := by
  simp [Metrics.finalize, alookup_map]

theorem percentile_idx_lt (p cnt : Nat) (h : 0 < cnt) (hp : p < 100) :
    (p * cnt) / 100 < cnt := by
  rw [Nat.div_lt_iff_lt_mul (by norm_num : (0:Nat) < 100)]
  nlinarith

/-! ### Claim C2 -/

/-- What claim C2 asserts of one finalized time record whose value history
(under `AddEvent`) is `projTime name es`: the buffer is the ascending sort
of the received values, `min`/`max`/`med`/`p95` are nearest-rank reads of
it, `avg` divides the pre-rescale total (non-outlier sum plus outlier sum)
by the count, and the final `sum` rescales only the non-outlier portion. -/
def C2TimeProp (es : List (Event × Bool)) (R : Nat) (name : GoStr) (f : TimeStats) : Prop :=
  let hist := projTime name es
  let buf := List.insertionSort (· ≤ ·) (hist.map (fun p => p.1))
  let cnt := buf.length
  0 < cnt ∧ buf.Sorted (· ≤ ·) ∧ List.Perm buf (hist.map (fun p => p.1)) ∧
  f.vals = buf ∧
  f.Min = buf.getD 0 0 ∧
  f.Max = buf.getD (cnt - 1) 0 ∧
  f.Med = buf.getD ((50 * cnt) / 100) 0 ∧
  f.P95 = buf.getD ((95 * cnt) / 100) 0 ∧
  f.Avg = (sumNonOutlierT hist + sumOutlierT hist) / (cnt : ℚ) ∧
  f.Sum = sumNonOutlierT hist * (R : ℚ) + sumOutlierT hist

/-- The number-record analogue of `C2TimeProp` (`avg` is integer division). -/
def C2NumberProp (es : List (Event × Bool)) (R : Nat) (name : GoStr) (f : NumberStats) : Prop :=
  let hist := projNumber name es
  let buf := List.insertionSort (· ≤ ·) (hist.map (fun p => p.1))
  let cnt := buf.length
  0 < cnt ∧ buf.Sorted (· ≤ ·) ∧ List.Perm buf (hist.map (fun p => p.1)) ∧
  f.vals = buf ∧
  f.Min = buf.getD 0 0 ∧
  f.Max = buf.getD (cnt - 1) 0 ∧
  f.Med = buf.getD ((50 * cnt) / 100) 0 ∧
  f.P95 = buf.getD ((95 * cnt) / 100) 0 ∧
  f.Avg = (sumNonOutlierN hist + sumOutlierN hist) / cnt ∧
  f.Sum = sumNonOutlierN hist * R + sumOutlierN hist

/-- C2: for every time and number stats record built by `AddEvent`,
`Metrics.Finalize` with effective rate limit `R ≥ 1` sorts the value buffer
ascending, sets `min`/`max`/`med`/`p95` by nearest-rank integer indexing
into it, computes `avg` from the pre-scaled sum, and only afterwards sets
`sum := sum * R + outlier_sum`, so the rescale multiplies only the
non-outlier portion and counts outliers once. -/
theorem claim_C2 (es : List (Event × Bool)) (R : Nat) (hR : 1 ≤ R) :
    (∀ name f, alookup ((buildMetrics es).finalize R).TimeMetrics name = some f →
      C2TimeProp es R name f) ∧
    (∀ name f, alookup ((buildMetrics es).finalize R).NumberMetrics name = some f →
      C2NumberProp es R name f) := by
  have hReff : (if R = 0 then 1 else R) = R := by
    have : R ≠ 0 := by omega
    simp [this]
  constructor
  · intro name f h
    rw [alookup_finalize_time, hReff] at h
    cases hs : alookup (buildMetrics es).TimeMetrics name with
    | none => rw [hs] at h; simp at h
    | some s =>
      rw [hs] at h
      simp at h
      obtain ⟨hne, hrec⟩ := buildMetrics_time_record es name s hs
      have hvals : s.vals = (projTime name es).map (fun p => p.1) := by
        rw [hrec, vals_extendTP]; simp [newTimeStats]
      have hsum : s.Sum = sumNonOutlierT (projTime name es) := by
        rw [hrec, sum_extendTP]; simp [newTimeStats]
      have hout : s.outlierSum = sumOutlierT (projTime name es) := by
        rw [hrec, outlierSum_extendTP]; simp [newTimeStats]
      subst h
      unfold C2TimeProp
      have hperm := List.perm_insertionSort (· ≤ ·)
        (((projTime name es).map (fun p => p.1)))
      have hlen : (List.insertionSort (· ≤ ·)
          ((projTime name es).map (fun p => p.1))).length =
          (projTime name es).length := by
        rw [hperm.length_eq, List.length_map]
      have hpos : 0 < (List.insertionSort (· ≤ ·)
          ((projTime name es).map (fun p => p.1))).length := by
        rw [hlen]
        exact List.length_pos.mpr hne
      refine ⟨hpos, List.sorted_insertionSort _ _, hperm, ?_, ?_, ?_, ?_, ?_, ?_, ?_⟩ <;>
        simp [TimeStats.finalize, hvals, hsum, hout]
  · intro name f h
    rw [alookup_finalize_number, hReff] at h
    cases hs : alookup (buildMetrics es).NumberMetrics name with
    | none => rw [hs] at h; simp at h
    | some s =>
      rw [hs] at h
      simp at h
      obtain ⟨hne, hrec⟩ := buildMetrics_number_record es name s hs
      have hvals : s.vals = (projNumber name es).map (fun p => p.1) := by
        rw [hrec, vals_extendNP]; simp [newNumberStats]
      have hsum : s.Sum = sumNonOutlierN (projNumber name es) := by
        rw [hrec, sum_extendNP]; simp [newNumberStats]
      have hout : s.outlierSum = sumOutlierN (projNumber name es) := by
        rw [hrec, outlierSum_extendNP]; simp [newNumberStats]
      subst h
      unfold C2NumberProp
      have hperm := List.perm_insertionSort (· ≤ ·)
        (((projNumber name es).map (fun p => p.1)))
      have hlen : (List.insertionSort (· ≤ ·)
          ((projNumber name es).map (fun p => p.1))).length =
          (projNumber name es).length := by
        rw [hperm.length_eq, List.length_map]
      have hpos : 0 < (List.insertionSort (· ≤ ·)
          ((projNumber name es).map (fun p => p.1))).length := by
        rw [hlen]
        exact List.length_pos.mpr hne
      refine ⟨hpos, List.sorted_insertionSort _ _, hperm, ?_, ?_, ?_, ?_, ?_, ?_, ?_⟩ <;>
        simp [NumberStats.finalize, hvals, hsum, hout]

theorem opt_eq_some_getD {α : Type} (o : Option α) (d : α) (h : o.isSome = true) :
    o = some (o.getD d) := by
  cases o with
  | none => simp at h
  | some v => rfl

/-- A concrete two-event history (one outlier) used to witness the metric
claims. -/
def wEvent1 : Event :=
  { NewEvent with TimeMetrics := [(str "Query_time", 3)],
                  NumberMetrics := [(str "Rows_sent", 7)] }

def wEvent2 : Event :=
  { NewEvent with TimeMetrics := [(str "Query_time", 1)],
                  NumberMetrics := [(str "Rows_sent", 2)] }

def wes : List (Event × Bool) := [(wEvent1, false), (wEvent2, true)]

theorem claim_C2_witness :
    C2TimeProp wes 2 (str "Query_time")
      ((alookup ((buildMetrics wes).finalize 2).TimeMetrics (str "Query_time")).getD
        newTimeStats) ∧
    C2NumberProp wes 2 (str "Rows_sent")
      ((alookup ((buildMetrics wes).finalize 2).NumberMetrics (str "Rows_sent")).getD
        newNumberStats) :=
  ⟨(claim_C2 wes 2 (by norm_num)).1 _ _ (opt_eq_some_getD _ _ (by decide)),
   (claim_C2 wes 2 (by norm_num)).2 _ _ (opt_eq_some_getD _ _ (by decide))⟩

/-! ### Claim C7 -/

/-- What claim C7 asserts of one time record at finalize: the buffer is
non-empty and all four read indices are in bounds. -/
def C7TimeProp (s : TimeStats) : Prop :=
  let cnt := (List.insertionSort (· ≤ ·) s.vals).length
  s.vals ≠ [] ∧ 0 < cnt ∧ cnt - 1 < cnt ∧
  (50 * cnt) / 100 < cnt ∧ (95 * cnt) / 100 < cnt

def C7NumberProp (s : NumberStats) : Prop :=
  let cnt := (List.insertionSort (· ≤ ·) s.vals).length
  s.vals ≠ [] ∧ 0 < cnt ∧ cnt - 1 < cnt ∧
  (50 * cnt) / 100 < cnt ∧ (95 * cnt) / 100 < cnt

/-- C7: `Metrics.Finalize` never indexes its value buffers out of bounds:
in a `Metrics` built only through `AddEvent`, every time/number record's
buffer is non-empty, and the indices `0`, `cnt-1`, `(50*cnt)/100` and
`(95*cnt)/100` are strictly below `cnt`. -/
theorem claim_C7 (es : List (Event × Bool)) :
    (∀ name s, alookup (buildMetrics es).TimeMetrics name = some s → C7TimeProp s) ∧
    (∀ name s, alookup (buildMetrics es).NumberMetrics name = some s → C7NumberProp s) := by
  constructor
  · intro name s hs
    obtain ⟨hne, hrec⟩ := buildMetrics_time_record es name s hs
    have hvals : s.vals = (projTime name es).map (fun p => p.1) := by
      rw [hrec, vals_extendTP]; simp [newTimeStats]
    have hvne : s.vals ≠ [] := by
      rw [hvals]; simpa using hne
    have hlen : (List.insertionSort (· ≤ ·) s.vals).length = s.vals.length :=
      (List.perm_insertionSort (· ≤ ·) s.vals).length_eq
    have hpos : 0 < (List.insertionSort (· ≤ ·) s.vals).length := by
      rw [hlen]; exact List.length_pos.mpr hvne
    exact ⟨hvne, hpos, by omega,
      percentile_idx_lt 50 _ hpos (by norm_num),
      percentile_idx_lt 95 _ hpos (by norm_num)⟩
  · intro name s hs
    obtain ⟨hne, hrec⟩ := buildMetrics_number_record es name s hs
    have hvals : s.vals = (projNumber name es).map (fun p => p.1) := by
      rw [hrec, vals_extendNP]; simp [newNumberStats]
    have hvne : s.vals ≠ [] := by
      rw [hvals]; simpa using hne
    have hlen : (List.insertionSort (· ≤ ·) s.vals).length = s.vals.length :=
      (List.perm_insertionSort (· ≤ ·) s.vals).length_eq
    have hpos : 0 < (List.insertionSort (· ≤ ·) s.vals).length := by
      rw [hlen]; exact List.length_pos.mpr hvne
    exact ⟨hvne, hpos, by omega,
      percentile_idx_lt 50 _ hpos (by norm_num),
      percentile_idx_lt 95 _ hpos (by norm_num)⟩

/-! ### Claim C5 -/

theorem getD_le_getD_of_sorted {α : Type} [LinearOrder α] {l : List α}
    (hs : l.Sorted (· ≤ ·)) {i j : Nat} (hij : i ≤ j) (hj : j < l.length) (d : α) :
    l.getD i d ≤ l.getD j d := by
  have hi : i < l.length := Nat.lt_of_le_of_lt hij hj
  rw [List.getD_eq_getElem _ _ hi, List.getD_eq_getElem _ _ hj]
  have := hs.rel_get_of_le (a := ⟨i, hi⟩) (b := ⟨j, hj⟩) (Fin.mk_le_mk.mpr hij)
  simpa [List.get_eq_getElem] using this

theorem mem_bounds_of_sorted {α : Type} [LinearOrder α] {l : List α}
    (hs : l.Sorted (· ≤ ·)) (d : α) {x : α} (hx : x ∈ l) :
    l.getD 0 d ≤ x ∧ x ≤ l.getD (l.length - 1) d := by
  obtain ⟨i, hi⟩ := List.mem_iff_get.mp hx
  have h0 : l.getD 0 d ≤ l.getD i.1 d :=
    getD_le_getD_of_sorted hs (Nat.zero_le _) i.2 d
  have h1 : l.getD i.1 d ≤ l.getD (l.length - 1) d :=
    getD_le_getD_of_sorted hs (by omega) (by have := i.2; omega) d
  have hgi : l.getD i.1 d = l.get i := by
    rw [List.getD_eq_getElem _ _ i.2]
    simp [List.get_eq_getElem]
  rw [← hi]
  exact ⟨hgi ▸ h0, hgi ▸ h1⟩

theorem q_avg_bounds (l : List ℚ) (hne : l ≠ []) (m M : ℚ)
    (hm : ∀ x ∈ l, m ≤ x) (hM : ∀ x ∈ l, x ≤ M) :
    m ≤ l.sum / (l.length : ℚ) ∧ l.sum / (l.length : ℚ) ≤ M := by
  have hpos : (0 : ℚ) < l.length := by
    exact_mod_cast List.length_pos.mpr hne
  have h1 : (l.length : ℚ) * m ≤ l.sum := by
    have := List.card_nsmul_le_sum l m hm
    simpa [nsmul_eq_mul] using this
  have h2 : l.sum ≤ (l.length : ℚ) * M := by
    have := List.sum_le_card_nsmul l M hM
    simpa [nsmul_eq_mul] using this
  constructor
  · rw [le_div_iff hpos]
    nlinarith
  · rw [div_le_iff hpos]
    nlinarith

theorem nat_avg_bounds (l : List Nat) (hne : l ≠ []) (m M : Nat)
    (hm : ∀ x ∈ l, m ≤ x) (hM : ∀ x ∈ l, x ≤ M) :
    m ≤ l.sum / l.length ∧ l.sum / l.length ≤ M := by
  have hpos : 0 < l.length := List.length_pos.mpr hne
  have h1 : l.length * m ≤ l.sum := by
    have := List.card_nsmul_le_sum l m hm
    simpa [smul_eq_mul] using this
  have h2 : l.sum ≤ l.length * M := by
    have := List.sum_le_card_nsmul l M hM
    simpa [smul_eq_mul] using this
  constructor
  · rw [Nat.le_div_iff_mul_le hpos, Nat.mul_comm]
    exact h1
  · calc l.sum / l.length ≤ l.length * M / l.length := Nat.div_le_div_right h2
      _ = M := Nat.mul_div_cancel_left M hpos

theorem sum_split_T (l : List (ℚ × Bool)) :
    sumNonOutlierT l + sumOutlierT l = (l.map (fun p => p.1)).sum := by
  induction l with
  | nil => simp [sumNonOutlierT, sumOutlierT]
  | cons p l ih =>
    cases hp : p.2 <;>
      · simp [sumNonOutlierT, sumOutlierT, hp] at ih ⊢
        linarith

theorem sum_split_N (l : List (Nat × Bool)) :
    sumNonOutlierN l + sumOutlierN l = (l.map (fun p => p.1)).sum := by
  induction l with
  | nil => simp [sumNonOutlierN, sumOutlierN]
  | cons p l ih =>
    cases hp : p.2 <;>
      · simp [sumNonOutlierN, sumOutlierN, hp] at ih ⊢
        omega

theorem sumNonOutlierT_nonneg (l : List (ℚ × Bool)) (h : ∀ p ∈ l, 0 ≤ p.1) :
    0 ≤ sumNonOutlierT l := by
  apply List.sum_nonneg
  intro x hx
  obtain ⟨p, hp, rfl⟩ := List.mem_map.mp hx
  exact h p (List.mem_of_mem_filter hp)

theorem sumOutlierT_nonneg (l : List (ℚ × Bool)) (h : ∀ p ∈ l, 0 ≤ p.1) :
    0 ≤ sumOutlierT l := by
  apply List.sum_nonneg
  intro x hx
  obtain ⟨p, hp, rfl⟩ := List.mem_map.mp hx
  exact h p (List.mem_of_mem_filter hp)

/-- What the amended claim C5 asserts of one finalized time record:
`min ≤ med ≤ max`, `min ≤ p95 ≤ max`, `min ≤ avg ≤ max` (with `avg` the
pre-rescale average), and — when all recorded values are nonnegative —
the post-rescale `sum` dominates the sum of the non-outlier values. -/
def C5TimeProp (es : List (Event × Bool)) (name : GoStr) (f : TimeStats) : Prop :=
  (f.Min ≤ f.Med ∧ f.Med ≤ f.Max) ∧
  (f.Min ≤ f.P95 ∧ f.P95 ≤ f.Max) ∧
  (f.Min ≤ f.Avg ∧ f.Avg ≤ f.Max) ∧
  ((∀ p ∈ projTime name es, 0 ≤ p.1) → sumNonOutlierT (projTime name es) ≤ f.Sum)

/-- The number-record analogue of `C5TimeProp`; `uint64` values are
nonnegative by type, so the sum bound needs no hypothesis. -/
def C5NumberProp (es : List (Event × Bool)) (name : GoStr) (f : NumberStats) : Prop :=
  (f.Min ≤ f.Med ∧ f.Med ≤ f.Max) ∧
  (f.Min ≤ f.P95 ∧ f.P95 ≤ f.Max) ∧
  (f.Min ≤ f.Avg ∧ f.Avg ≤ f.Max) ∧
  sumNonOutlierN (projNumber name es) ≤ f.Sum

/-- C5 as amended: the ordering invariants hold unconditionally, and the
post-rescale sum bound holds for number metrics and for time metrics whose
recorded values are nonnegative (a time metric fed a negative value is the
counterexample to the unconditional bound). -/
theorem claim_C5_amended (es : List (Event × Bool)) (R : Nat) (hR : 1 ≤ R) :
    (∀ name f, alookup ((buildMetrics es).finalize R).TimeMetrics name = some f →
      C5TimeProp es name f) ∧
    (∀ name f, alookup ((buildMetrics es).finalize R).NumberMetrics name = some f →
      C5NumberProp es name f) := by
  have hReff : (if R = 0 then 1 else R) = R := by
    have : R ≠ 0 := by omega
    simp [this]
  constructor
  · intro name f h
    rw [alookup_finalize_time, hReff] at h
    cases hs : alookup (buildMetrics es).TimeMetrics name with
    | none => rw [hs] at h; simp at h
    | some s =>
      rw [hs] at h
      simp at h
      obtain ⟨hne, hrec⟩ := buildMetrics_time_record es name s hs
      have hvals : s.vals = (projTime name es).map (fun p => p.1) := by
        rw [hrec, vals_extendTP]; simp [newTimeStats]
      have hsum : s.Sum = sumNonOutlierT (projTime name es) := by
        rw [hrec, sum_extendTP]; simp [newTimeStats]
      have hout : s.outlierSum = sumOutlierT (projTime name es) := by
        rw [hrec, outlierSum_extendTP]; simp [newTimeStats]
      subst h
      have hsorted : (List.insertionSort (· ≤ ·) s.vals).Sorted (· ≤ ·) :=
        List.sorted_insertionSort _ _
      have hperm : (List.insertionSort (· ≤ ·) s.vals).Perm s.vals :=
        List.perm_insertionSort _ _
      have hpos : 0 < (List.insertionSort (· ≤ ·) s.vals).length := by
        rw [hperm.length_eq, hvals, List.length_map]
        exact List.length_pos.mpr hne
      have h50 : (50 * (List.insertionSort (· ≤ ·) s.vals).length) / 100 <
          (List.insertionSort (· ≤ ·) s.vals).length :=
        percentile_idx_lt 50 _ hpos (by norm_num)
      have h95 : (95 * (List.insertionSort (· ≤ ·) s.vals).length) / 100 <
          (List.insertionSort (· ≤ ·) s.vals).length :=
        percentile_idx_lt 95 _ hpos (by norm_num)
      have hbufne : List.insertionSort (· ≤ ·) s.vals ≠ [] :=
        List.length_pos.mp hpos
      have htot : s.Sum + s.outlierSum = (List.insertionSort (· ≤ ·) s.vals).sum := by
        rw [hsum, hout, sum_split_T, ← hvals, hperm.sum_eq]
      have havg : (s.finalize R).Avg = (List.insertionSort (· ≤ ·) s.vals).sum /
          (((List.insertionSort (· ≤ ·) s.vals).length : Nat) : ℚ) := by
        show (s.Sum + s.outlierSum) / _ = _
        rw [htot]
      have hbnd := q_avg_bounds (List.insertionSort (· ≤ ·) s.vals) hbufne
        ((List.insertionSort (· ≤ ·) s.vals).getD 0 0)
        ((List.insertionSort (· ≤ ·) s.vals).getD
          ((List.insertionSort (· ≤ ·) s.vals).length - 1) 0)
        (fun x hx => (mem_bounds_of_sorted hsorted 0 hx).1)
        (fun x hx => (mem_bounds_of_sorted hsorted 0 hx).2)
      refine ⟨⟨?_, ?_⟩, ⟨?_, ?_⟩, ⟨?_, ?_⟩, ?_⟩
      · exact getD_le_getD_of_sorted hsorted (Nat.zero_le _) h50 0
      · exact getD_le_getD_of_sorted hsorted (by omega) (by omega) 0
      · exact getD_le_getD_of_sorted hsorted (Nat.zero_le _) h95 0
      · exact getD_le_getD_of_sorted hsorted (by omega) (by omega) 0
      · rw [havg]; exact hbnd.1
      · rw [havg]; exact hbnd.2
      · intro hnn
        have hSum : (s.finalize R).Sum = s.Sum * (R : ℚ) + s.outlierSum := rfl
        rw [hSum, hsum, hout]
        have h1 : 0 ≤ sumNonOutlierT (projTime name es) := sumNonOutlierT_nonneg _ hnn
        have h2 : 0 ≤ sumOutlierT (projTime name es) := sumOutlierT_nonneg _ hnn
        have hcast : (1 : ℚ) ≤ (R : ℚ) := by exact_mod_cast hR
        nlinarith
  · intro name f h
    rw [alookup_finalize_number, hReff] at h
    cases hs : alookup (buildMetrics es).NumberMetrics name with
    | none => rw [hs] at h; simp at h
    | some s =>
      rw [hs] at h
      simp at h
      obtain ⟨hne, hrec⟩ := buildMetrics_number_record es name s hs
      have hvals : s.vals = (projNumber name es).map (fun p => p.1) := by
        rw [hrec, vals_extendNP]; simp [newNumberStats]
      have hsum : s.Sum = sumNonOutlierN (projNumber name es) := by
        rw [hrec, sum_extendNP]; simp [newNumberStats]
      have hout : s.outlierSum = sumOutlierN (projNumber name es) := by
        rw [hrec, outlierSum_extendNP]; simp [newNumberStats]
      subst h
      have hsorted : (List.insertionSort (· ≤ ·) s.vals).Sorted (· ≤ ·) :=
        List.sorted_insertionSort _ _
      have hperm : (List.insertionSort (· ≤ ·) s.vals).Perm s.vals :=
        List.perm_insertionSort _ _
      have hpos : 0 < (List.insertionSort (· ≤ ·) s.vals).length := by
        rw [hperm.length_eq, hvals, List.length_map]
        exact List.length_pos.mpr hne
      have h50 : (50 * (List.insertionSort (· ≤ ·) s.vals).length) / 100 <
          (List.insertionSort (· ≤ ·) s.vals).length :=
        percentile_idx_lt 50 _ hpos (by norm_num)
      have h95 : (95 * (List.insertionSort (· ≤ ·) s.vals).length) / 100 <
          (List.insertionSort (· ≤ ·) s.vals).length :=
        percentile_idx_lt 95 _ hpos (by norm_num)
      have hbufne : List.insertionSort (· ≤ ·) s.vals ≠ [] :=
        List.length_pos.mp hpos
      have htot : s.Sum + s.outlierSum = (List.insertionSort (· ≤ ·) s.vals).sum := by
        rw [hsum, hout, sum_split_N, ← hvals, hperm.sum_eq]
      have havg : (s.finalize R).Avg = (List.insertionSort (· ≤ ·) s.vals).sum /
          (List.insertionSort (· ≤ ·) s.vals).length := by
        show (s.Sum + s.outlierSum) / _ = _
        rw [htot]
      have hbnd := nat_avg_bounds (List.insertionSort (· ≤ ·) s.vals) hbufne
        ((List.insertionSort (· ≤ ·) s.vals).getD 0 0)
        ((List.insertionSort (· ≤ ·) s.vals).getD
          ((List.insertionSort (· ≤ ·) s.vals).length - 1) 0)
        (fun x hx => (mem_bounds_of_sorted hsorted 0 hx).1)
        (fun x hx => (mem_bounds_of_sorted hsorted 0 hx).2)
      refine ⟨⟨?_, ?_⟩, ⟨?_, ?_⟩, ⟨?_, ?_⟩, ?_⟩
      · exact getD_le_getD_of_sorted hsorted (Nat.zero_le _) h50 0
      · exact getD_le_getD_of_sorted hsorted (by omega) (by omega) 0
      · exact getD_le_getD_of_sorted hsorted (Nat.zero_le _) h95 0
      · exact getD_le_getD_of_sorted hsorted (by omega) (by omega) 0
      · rw [havg]; exact hbnd.1
      · rw [havg]; exact hbnd.2
      · have hSum : (s.finalize R).Sum = s.Sum * R + s.outlierSum := rfl
        rw [hSum, hsum]
        calc sumNonOutlierN (projNumber name es)
            ≤ sumNonOutlierN (projNumber name es) * R := Nat.le_mul_of_pos_right _ (by omega)
          _ ≤ sumNonOutlierN (projNumber name es) * R + s.outlierSum := Nat.le_add_right _ _

/-- A crafted event carrying a negative time-metric value (the slow-log
format does not forbid one; `ParseFloat` accepts it). -/
def negEvent : Event := { NewEvent with TimeMetrics := [(str "X_time", -1)] }

/-- Counterexample to C5 as stated: after one outlier `AddEvent` with time
value `-1` and `Finalize(1)`, the record's final `sum` is `-1`, strictly
below the (empty) non-outlier sum `0`. -/
theorem claim_C5_counterexample :
    ¬ (sumNonOutlierT (projTime (str "X_time") [(negEvent, true)]) ≤
       ((alookup ((buildMetrics [(negEvent, true)]).finalize 1).TimeMetrics
          (str "X_time")).getD newTimeStats).Sum) := by
  have h1 : projTime (str "X_time") [(negEvent, true)] = [(-1, true)] := by
    simp [projTime, negEvent, NewEvent]
  have h2 : alookup ((buildMetrics [(negEvent, true)]).finalize 1).TimeMetrics (str "X_time") =
      some ((extendTP newTimeStats [(-1, true)]).finalize 1) := by
    rw [alookup_finalize_time, alookup_buildMetrics_time, h1]
    simp [optRecT]
  rw [h1, h2]
  simp [extendTP, TimeStats.add, newTimeStats, TimeStats.finalize, sumNonOutlierT]

theorem claim_C5_witness :
    C5TimeProp wes (str "Query_time")
      ((alookup ((buildMetrics wes).finalize 2).TimeMetrics (str "Query_time")).getD
        newTimeStats) ∧
    C5NumberProp wes (str "Rows_sent")
      ((alookup ((buildMetrics wes).finalize 2).NumberMetrics (str "Rows_sent")).getD
        newNumberStats) :=
  ⟨(claim_C5_amended wes 2 (by norm_num)).1 _ _ (opt_eq_some_getD _ _ (by decide)),
   (claim_C5_amended wes 2 (by norm_num)).2 _ _ (opt_eq_some_getD _ _ (by decide))⟩

/-! ### Claim C6 -/

def projBool (name : GoStr) (es : List (Event × Bool)) : List (Bool × Bool) :=
  es.flatMap (fun p =>
    (p.1.BoolMetrics.filter (fun kv => kv.1 = name)).map (fun kv => (kv.2, p.2)))

def extendBP (s₀ : BoolStats) (l : List (Bool × Bool)) : BoolStats :=
  l.foldl (fun s p => s.add p.1 p.2) s₀

def optRecB (base : Option BoolStats) (l : List (Bool × Bool)) : Option BoolStats :=
  match base with
  | some s => some (extendBP s l)
  | none => if l.isEmpty then none else some (extendBP newBoolStats l)

theorem optRecB_nil (base : Option BoolStats) : optRecB base [] = base := by
  cases base <;> simp [optRecB, extendBP]

theorem extendBP_append (s : BoolStats) (l₁ l₂ : List (Bool × Bool)) :
    extendBP s (l₁ ++ l₂) = extendBP (extendBP s l₁) l₂ := by
  simp [extendBP, List.foldl_append]

theorem optRecB_append (base : Option BoolStats) (l₁ l₂ : List (Bool × Bool)) :
    optRecB (optRecB base l₁) l₂ = optRecB base (l₁ ++ l₂) := by
  cases base with
  | some s => simp [optRecB, extendBP_append]
  | none =>
    cases l₁ with
    | nil => simp [optRecB]
    | cons p l₁ =>
      simp [optRecB, ← extendBP_append]

theorem alookup_addBoolEntries (entries : List (GoStr × Bool)) (o : Bool)
    (m : List (GoStr × BoolStats)) (name : GoStr) :
    alookup (addBoolEntries m entries o) name =
      optRecB (alookup m name)
        (((entries.filter (fun kv => kv.1 = name)).map (fun kv => kv.2)).map
          (fun v => (v, o))) := by
  induction entries generalizing m with
  | nil => simp [addBoolEntries, optRecB_nil]
  | cons kv rest ih =>
    obtain ⟨k, v⟩ := kv
    have hstep : addBoolEntries m ((k, v) :: rest) o =
        addBoolEntries (alupd m k (fun o' => (o'.getD newBoolStats).add v o)) rest o := rfl
    rw [hstep, ih]
    by_cases hk : k = name
    · subst hk
      rw [alookup_alupd_self]
      cases hm : alookup m k with
      | some s => simp [optRecB, extendBP]
      | none => simp [optRecB, extendBP]
    · rw [alookup_alupd_other _ _ _ _ (fun hh => hk hh.symm)]
      simp [hk]

theorem alookup_foldMetrics_bool (es : List (Event × Bool)) (name : GoStr) (m : Metrics) :
    alookup ((es.foldl (fun m p => m.addEvent p.1 p.2) m).BoolMetrics) name =
      optRecB (alookup m.BoolMetrics name) (projBool name es) := by
  induction es generalizing m with
  | nil => simp [projBool, optRecB_nil]
  | cons p rest ih =>
    obtain ⟨e, o⟩ := p
    rw [List.foldl_cons, ih]
    show optRecB (alookup (addBoolEntries m.BoolMetrics e.BoolMetrics o) name) _ = _
    rw [alookup_addBoolEntries, optRecB_append]
    simp [projBool, Function.comp_def]

theorem alookup_buildMetrics_bool (es : List (Event × Bool)) (name : GoStr) :
    alookup (buildMetrics es).BoolMetrics name = optRecB none (projBool name es) :=
  alookup_foldMetrics_bool es name NewMetrics

theorem sum_extendBP (l : List (Bool × Bool)) (s : BoolStats) :
    (extendBP s l).Sum = s.Sum + (l.filter (fun p => p.1 && !p.2)).length := by
  induction l generalizing s with
  | nil => simp [extendBP]
  | cons p l ih =>
    have hstep : extendBP s (p :: l) = extendBP (s.add p.1 p.2) l := rfl
    rw [hstep, ih]
    cases h1 : p.1 <;> cases h2 : p.2 <;> simp [BoolStats.add, h1, h2] <;> omega

theorem outlierSum_extendBP (l : List (Bool × Bool)) (s : BoolStats) :
    (extendBP s l).outlierSum = s.outlierSum + (l.filter (fun p => p.1 && p.2)).length := by
  induction l generalizing s with
  | nil => simp [extendBP]
  | cons p l ih =>
    have hstep : extendBP s (p :: l) = extendBP (s.add p.1 p.2) l := rfl
    rw [hstep, ih]
    cases h1 : p.1 <;> cases h2 : p.2 <;> simp [BoolStats.add, h1, h2] <;> omega

theorem min_extendTP (l : List (ℚ × Bool)) (s : TimeStats) :
    (extendTP s l).Min = s.Min ∧ (extendTP s l).Avg = s.Avg ∧
    (extendTP s l).Med = s.Med ∧ (extendTP s l).P95 = s.P95 ∧
    (extendTP s l).Max = s.Max := by
  induction l generalizing s with
  | nil => simp [extendTP_nil]
  | cons p l ih =>
    rw [extendTP_cons]
    cases hp : p.2 <;> simpa [TimeStats.add, hp] using ih _

theorem min_extendNP (l : List (Nat × Bool)) (s : NumberStats) :
    (extendNP s l).Min = s.Min ∧ (extendNP s l).Avg = s.Avg ∧
    (extendNP s l).Med = s.Med ∧ (extendNP s l).P95 = s.P95 ∧
    (extendNP s l).Max = s.Max := by
  induction l generalizing s with
  | nil => simp [extendNP_nil]
  | cons p l ih =>
    rw [extendNP_cons]
    cases hp : p.2 <;> simpa [NumberStats.add, hp] using ih _

theorem sumNonOutlierT_perm {l₁ l₂ : List (ℚ × Bool)} (h : l₁.Perm l₂) :
    sumNonOutlierT l₁ = sumNonOutlierT l₂ :=
  ((h.filter _).map _).sum_eq

theorem sumOutlierT_perm {l₁ l₂ : List (ℚ × Bool)} (h : l₁.Perm l₂) :
    sumOutlierT l₁ = sumOutlierT l₂ :=
  ((h.filter _).map _).sum_eq

theorem sumNonOutlierN_perm {l₁ l₂ : List (Nat × Bool)} (h : l₁.Perm l₂) :
    sumNonOutlierN l₁ = sumNonOutlierN l₂ :=
  ((h.filter _).map _).sum_eq

theorem sumOutlierN_perm {l₁ l₂ : List (Nat × Bool)} (h : l₁.Perm l₂) :
    sumOutlierN l₁ = sumOutlierN l₂ :=
  ((h.filter _).map _).sum_eq

theorem insertionSort_eq_of_perm {α : Type} [LinearOrder α] {l₁ l₂ : List α}
    (h : l₁.Perm l₂) :
    List.insertionSort (· ≤ ·) l₁ = List.insertionSort (· ≤ ·) l₂ :=
  List.eq_of_perm_of_sorted
    ((List.perm_insertionSort _ _).trans (h.trans (List.perm_insertionSort _ _).symm))
    (List.sorted_insertionSort _ _) (List.sorted_insertionSort _ _)

theorem finalize_extendTP_perm {l₁ l₂ : List (ℚ × Bool)} (h : l₁.Perm l₂) (R : Nat) :
    (extendTP newTimeStats l₁).finalize R = (extendTP newTimeStats l₂).finalize R := by
  have hv₁ : (extendTP newTimeStats l₁).vals = l₁.map (fun p => p.1) := by
    rw [vals_extendTP]; simp [newTimeStats]
  have hv₂ : (extendTP newTimeStats l₂).vals = l₂.map (fun p => p.1) := by
    rw [vals_extendTP]; simp [newTimeStats]
  have hsort : List.insertionSort (· ≤ ·) (extendTP newTimeStats l₁).vals =
      List.insertionSort (· ≤ ·) (extendTP newTimeStats l₂).vals := by
    rw [hv₁, hv₂]
    exact insertionSort_eq_of_perm (h.map _)
  have hSum : (extendTP newTimeStats l₁).Sum = (extendTP newTimeStats l₂).Sum := by
    rw [sum_extendTP, sum_extendTP, sumNonOutlierT_perm h]
  have hout : (extendTP newTimeStats l₁).outlierSum =
      (extendTP newTimeStats l₂).outlierSum := by
    rw [outlierSum_extendTP, outlierSum_extendTP, sumOutlierT_perm h]
  simp [TimeStats.finalize, hsort, hSum, hout]

theorem finalize_extendNP_perm {l₁ l₂ : List (Nat × Bool)} (h : l₁.Perm l₂) (R : Nat) :
    (extendNP newNumberStats l₁).finalize R = (extendNP newNumberStats l₂).finalize R := by
  have hv₁ : (extendNP newNumberStats l₁).vals = l₁.map (fun p => p.1) := by
    rw [vals_extendNP]; simp [newNumberStats]
  have hv₂ : (extendNP newNumberStats l₂).vals = l₂.map (fun p => p.1) := by
    rw [vals_extendNP]; simp [newNumberStats]
  have hsort : List.insertionSort (· ≤ ·) (extendNP newNumberStats l₁).vals =
      List.insertionSort (· ≤ ·) (extendNP newNumberStats l₂).vals := by
    rw [hv₁, hv₂]
    exact insertionSort_eq_of_perm (h.map _)
  have hSum : (extendNP newNumberStats l₁).Sum = (extendNP newNumberStats l₂).Sum := by
    rw [sum_extendNP, sum_extendNP, sumNonOutlierN_perm h]
  have hout : (extendNP newNumberStats l₁).outlierSum =
      (extendNP newNumberStats l₂).outlierSum := by
    rw [outlierSum_extendNP, outlierSum_extendNP, sumOutlierN_perm h]
  simp [NumberStats.finalize, hsort, hSum, hout]

theorem finalize_extendBP_perm {l₁ l₂ : List (Bool × Bool)} (h : l₁.Perm l₂) (R : Nat) :
    (extendBP newBoolStats l₁).finalize R = (extendBP newBoolStats l₂).finalize R := by
  have hSum : (extendBP newBoolStats l₁).Sum = (extendBP newBoolStats l₂).Sum := by
    rw [sum_extendBP, sum_extendBP, (h.filter _).length_eq]
  have hout : (extendBP newBoolStats l₁).outlierSum =
      (extendBP newBoolStats l₂).outlierSum := by
    rw [outlierSum_extendBP, outlierSum_extendBP, (h.filter _).length_eq]
  simp [BoolStats.finalize, hSum, hout]

theorem optRecT_map_finalize_perm (R : Nat) {l₁ l₂ : List (ℚ × Bool)} (h : l₁.Perm l₂) :
    (optRecT none l₁).map (TimeStats.finalize R) =
      (optRecT none l₂).map (TimeStats.finalize R) := by
  cases l₁ with
  | nil =>
    have h2 : l₂ = [] := h.symm.eq_nil
    rw [h2]
  | cons p l =>
    cases l₂ with
    | nil => exact absurd h.eq_nil (by simp)
    | cons q l' =>
      simp [optRecT, finalize_extendTP_perm h R]

theorem optRecN_map_finalize_perm (R : Nat) {l₁ l₂ : List (Nat × Bool)} (h : l₁.Perm l₂) :
    (optRecN none l₁).map (NumberStats.finalize R) =
      (optRecN none l₂).map (NumberStats.finalize R) := by
  cases l₁ with
  | nil =>
    have h2 : l₂ = [] := h.symm.eq_nil
    rw [h2]
  | cons p l =>
    cases l₂ with
    | nil => exact absurd h.eq_nil (by simp)
    | cons q l' =>
      simp [optRecN, finalize_extendNP_perm h R]

theorem optRecB_map_finalize_perm (R : Nat) {l₁ l₂ : List (Bool × Bool)} (h : l₁.Perm l₂) :
    (optRecB none l₁).map (BoolStats.finalize R) =
      (optRecB none l₂).map (BoolStats.finalize R) := by
  cases l₁ with
  | nil =>
    have h2 : l₂ = [] := h.symm.eq_nil
    rw [h2]
  | cons p l =>
    cases l₂ with
    | nil => exact absurd h.eq_nil (by simp)
    | cons q l' =>
      simp [optRecB, finalize_extendBP_perm h R]

/-- C6: the per-metric statistics produced by a sequence of
`Metrics.AddEvent` calls followed by `Finalize` depend only on the multiset
of events (with their outlier flags), not on insertion order: for any
permutation of the event sequence the finalized time, number and bool
records of every metric are identical (in particular `sum`, `min`, `max`,
`med` and `p95`). -/
theorem claim_C6 (es es' : List (Event × Bool)) (R : Nat) (name : GoStr)
    (hp : es.Perm es') :
    alookup ((buildMetrics es).finalize R).TimeMetrics name =
      alookup ((buildMetrics es').finalize R).TimeMetrics name ∧
    alookup ((buildMetrics es).finalize R).NumberMetrics name =
      alookup ((buildMetrics es').finalize R).NumberMetrics name ∧
    alookup ((buildMetrics es).finalize R).BoolMetrics name =
      alookup ((buildMetrics es').finalize R).BoolMetrics name := by
  refine ⟨?_, ?_, ?_⟩
  · rw [alookup_finalize_time, alookup_finalize_time,
      alookup_buildMetrics_time, alookup_buildMetrics_time]
    exact optRecT_map_finalize_perm _ (hp.flatMap_right _)
  · rw [alookup_finalize_number, alookup_finalize_number,
      alookup_buildMetrics_number, alookup_buildMetrics_number]
    exact optRecN_map_finalize_perm _ (hp.flatMap_right _)
  · rw [alookup_finalize_bool, alookup_finalize_bool,
      alookup_buildMetrics_bool, alookup_buildMetrics_bool]
    exact optRecB_map_finalize_perm _ (hp.flatMap_right _)

def wesSwap : List (Event × Bool) := [(wEvent2, true), (wEvent1, false)]

theorem claim_C6_witness :
    alookup ((buildMetrics wes).finalize 2).TimeMetrics (str "Query_time") =
      alookup ((buildMetrics wesSwap).finalize 2).TimeMetrics (str "Query_time") ∧
    alookup ((buildMetrics wes).finalize 2).NumberMetrics (str "Query_time") =
      alookup ((buildMetrics wesSwap).finalize 2).NumberMetrics (str "Query_time") ∧
    alookup ((buildMetrics wes).finalize 2).BoolMetrics (str "Query_time") =
      alookup ((buildMetrics wesSwap).finalize 2).BoolMetrics (str "Query_time") :=
  claim_C6 wes wesSwap 2 (str "Query_time")
    (List.Perm.swap (wEvent2, true) (wEvent1, false) [])

theorem claim_C7_witness :
    C7TimeProp ((alookup (buildMetrics wes).TimeMetrics (str "Query_time")).getD
      newTimeStats) ∧
    C7NumberProp ((alookup (buildMetrics wes).NumberMetrics (str "Rows_sent")).getD
      newNumberStats) :=
  ⟨(claim_C7 wes).1 _ _ (opt_eq_some_getD _ _ (by decide)),
   (claim_C7 wes).2 _ _ (opt_eq_some_getD _ _ (by decide))⟩

/-! ### Claim C3 (code bug: `maxQueryTime` is never updated) -/

def cmEvent1 : Event :=
  { NewEvent with TimeMetrics := [(str "Query_time", 5)],
                  CommentMetadata := [(str "k", str "a")] }

def cmEvent2 : Event :=
  { NewEvent with TimeMetrics := [(str "Query_time", 1)],
                  CommentMetadata := [(str "k", str "b")] }

def c3Class : Class :=
  ((NewClass (str "x") (str "f") true).addEvent cmEvent1 false).addEvent cmEvent2 false

/-- C3 fails on the code: after adding an event with `Query_time = 5`
(metadata `a`) and then one with `Query_time = 1` (metadata `b`),
`MaxQueryCommentMetadata` is the metadata of the *later, slower-ranked*
event `b`, not of the maximum-time event.  The guard compares against
`maxQueryTime`, which `Class.AddEvent` never assigns, so it stays 0 and any
event with positive `Query_time` overwrites the field. -/
theorem claim_C3_bug :
    alookup cmEvent1.TimeMetrics (str "Query_time") = some 5 ∧
    alookup cmEvent2.TimeMetrics (str "Query_time") = some 1 ∧
    (1 : ℚ) < 5 ∧
    c3Class.MaxQueryCommentMetadata = cmEvent2.CommentMetadata ∧
    c3Class.MaxQueryCommentMetadata ≠ cmEvent1.CommentMetadata := by
  refine ⟨by decide, by decide, by norm_num, by decide, by decide⟩

/-! ### Claim C4 -/

theorem Class.addEvent_TotalQueries (c : Class) (e : Event) (o : Bool) :
    (c.addEvent e o).TotalQueries = if o then c.TotalQueries else c.TotalQueries + 1 := by
  cases o <;>
    · simp only [Class.addEvent, Class.sampleUpdate, Class.metaUpdate]
      repeat' split
      all_goals simp

theorem Class.addEvent_outliers (c : Class) (e : Event) (o : Bool) :
    (c.addEvent e o).outliers = if o then c.outliers + 1 else c.outliers := by
  cases o <;>
    · simp only [Class.addEvent, Class.sampleUpdate, Class.metaUpdate]
      repeat' split
      all_goals simp

theorem Class.finalize_TotalQueries (c : Class) (R : Nat) :
    (c.finalize R).TotalQueries =
      c.TotalQueries * (if R = 0 then 1 else R) + c.outliers := by
  simp only [Class.finalize]
  repeat' split
  all_goals simp

/-- Adding an entry through `alupd` adds `d` to the sum of `g` over the map
values, provided the update adds `d` to an existing value and produces `d`
from an absent one. -/
theorem sum_alupd_add (m : List (GoStr × Class)) (k : GoStr) (f : Option Class → Class)
    (g : Class → Nat) (d : Nat)
    (hsome : ∀ c, g (f (some c)) = g c + d) (hnone : g (f none) = d) :
    ((alupd m k f).map (fun kv => g kv.2)).sum =
      (m.map (fun kv => g kv.2)).sum + d := by
  induction m with
  | nil => simp [alupd, hnone]
  | cons kv rest ih =>
    obtain ⟨k', v⟩ := kv
    by_cases hk : k' = k
    · subst hk
      simp [alupd, alookup, hsome v]
      omega
    · simp [alupd, alookup, hk, ih]
      omega

theorem sum_map_linear (l : List (GoStr × Class)) (g h : Class → Nat) (R : Nat) :
    (l.map (fun kv => g kv.2 * R + h kv.2)).sum =
      (l.map (fun kv => g kv.2)).sum * R + (l.map (fun kv => h kv.2)).sum := by
  induction l with
  | nil => simp
  | cons kv rest ih =>
    simp [ih]
    ring

def nonOutlierCount (ot : ℚ) (es : List (Event × GoStr × GoStr)) : Nat :=
  (es.filter (fun t => !(isOutlierEvent ot t.1))).length

def outlierCount (ot : ℚ) (es : List (Event × GoStr × GoStr)) : Nat :=
  (es.filter (fun t => isOutlierEvent ot t.1)).length

def nonOutlierCountFor (ot : ℚ) (id : GoStr) (es : List (Event × GoStr × GoStr)) : Nat :=
  (es.filter (fun t => !(isOutlierEvent ot t.1) && t.2.1 = id)).length

def outlierCountFor (ot : ℚ) (id : GoStr) (es : List (Event × GoStr × GoStr)) : Nat :=
  (es.filter (fun t => isOutlierEvent ot t.1 && t.2.1 = id)).length

def classTotal : Option Class → Nat
  | some c => c.TotalQueries
  | none => 0

def classOutliers : Option Class → Nat
  | some c => c.outliers
  | none => 0

theorem Aggregator.addEvent_outlierTime (a : Aggregator) (e : Event) (id fp : GoStr) :
    (a.addEvent e id fp).outlierTime = a.outlierTime := rfl

theorem Aggregator.addEvent_global (a : Aggregator) (e : Event) (id fp : GoStr) :
    (a.addEvent e id fp).global = a.global.addEvent e (isOutlierEvent a.outlierTime e) := rfl

theorem Aggregator.addEvent_classes (a : Aggregator) (e : Event) (id fp : GoStr) :
    (a.addEvent e id fp).classes =
      alupd a.classes id (fun o =>
        (o.getD (NewClass id fp a.samples)).addEvent e (isOutlierEvent a.outlierTime e)) := rfl

theorem NewClass_TotalQueries (id fp : GoStr) (sample : Bool) :
    (NewClass id fp sample).TotalQueries = 0 := rfl

theorem NewClass_outliers (id fp : GoStr) (sample : Bool) :
    (NewClass id fp sample).outliers = 0 := rfl

theorem foldAggregator_inv (ot : ℚ) (es : List (Event × GoStr × GoStr)) :
    ∀ a₀ : Aggregator, a₀.outlierTime = ot →
    (let a := es.foldl (fun a t => a.addEvent t.1 t.2.1 t.2.2) a₀
     a.outlierTime = ot ∧
     a.global.TotalQueries = a₀.global.TotalQueries + nonOutlierCount ot es ∧
     a.global.outliers = a₀.global.outliers + outlierCount ot es ∧
     (a.classes.map (fun kv => kv.2.TotalQueries)).sum =
       (a₀.classes.map (fun kv => kv.2.TotalQueries)).sum + nonOutlierCount ot es ∧
     (a.classes.map (fun kv => kv.2.outliers)).sum =
       (a₀.classes.map (fun kv => kv.2.outliers)).sum + outlierCount ot es ∧
     (∀ id, classTotal (alookup a.classes id) =
       classTotal (alookup a₀.classes id) + nonOutlierCountFor ot id es) ∧
     (∀ id, classOutliers (alookup a.classes id) =
       classOutliers (alookup a₀.classes id) + outlierCountFor ot id es)) := by
  induction es with
  | nil =>
    intro a₀ h₀
    simp [nonOutlierCount, outlierCount, nonOutlierCountFor, outlierCountFor, h₀]
  | cons t rest ih =>
    intro a₀ h₀
    obtain ⟨e, id', fp⟩ := t
    have h₁ : (a₀.addEvent e id' fp).outlierTime = ot := by
      rw [Aggregator.addEvent_outlierTime, h₀]
    obtain ⟨g1, g2, g3, g4, g5, g6, g7⟩ := ih (a₀.addEvent e id' fp) h₁
    have hupd : ∀ o : Option Class,
        ((o.getD (NewClass id' fp a₀.samples)).addEvent e
          (isOutlierEvent a₀.outlierTime e)).TotalQueries =
          classTotal o + (if isOutlierEvent ot e then 0 else 1) := by
      intro o
      rw [Class.addEvent_TotalQueries, h₀]
      cases o <;> cases isOutlierEvent ot e <;>
        simp [classTotal, NewClass_TotalQueries]
    have hupdO : ∀ o : Option Class,
        ((o.getD (NewClass id' fp a₀.samples)).addEvent e
          (isOutlierEvent a₀.outlierTime e)).outliers =
          classOutliers o + (if isOutlierEvent ot e then 1 else 0) := by
      intro o
      rw [Class.addEvent_outliers, h₀]
      cases o <;> cases isOutlierEvent ot e <;>
        simp [classOutliers, NewClass_outliers]
    have hcntN : nonOutlierCount ot ((e, id', fp) :: rest) =
        (if isOutlierEvent ot e then 0 else 1) + nonOutlierCount ot rest := by
      cases hh : isOutlierEvent ot e <;>
        simp [nonOutlierCount, List.filter_cons, hh] <;> omega
    have hcntO : outlierCount ot ((e, id', fp) :: rest) =
        (if isOutlierEvent ot e then 1 else 0) + outlierCount ot rest := by
      cases hh : isOutlierEvent ot e <;>
        simp [outlierCount, List.filter_cons, hh] <;> omega
    simp only [List.foldl_cons]
    refine ⟨g1, ?_, ?_, ?_, ?_, ?_, ?_⟩
    · rw [g2, Aggregator.addEvent_global, Class.addEvent_TotalQueries, h₀, hcntN]
      cases isOutlierEvent ot e <;> simp <;> omega
    · rw [g3, Aggregator.addEvent_global, Class.addEvent_outliers, h₀, hcntO]
      cases isOutlierEvent ot e <;> simp <;> omega
    · rw [g4, Aggregator.addEvent_classes,
        sum_alupd_add _ _ _ _ (if isOutlierEvent ot e then 0 else 1)
          (fun c => by simpa [classTotal] using hupd (some c))
          (by simpa [classTotal] using hupd none),
        hcntN]
      omega
    · rw [g5, Aggregator.addEvent_classes,
        sum_alupd_add _ _ _ _ (if isOutlierEvent ot e then 1 else 0)
          (fun c => by simpa [classOutliers] using hupdO (some c))
          (by simpa [classOutliers] using hupdO none),
        hcntO]
      omega
    · intro id
      rw [g6 id, Aggregator.addEvent_classes]
      by_cases hid : id = id'
      · subst hid
        rw [alookup_alupd_self]
        have hcf : nonOutlierCountFor ot id ((e, id, fp) :: rest) =
            (if isOutlierEvent ot e then 0 else 1) + nonOutlierCountFor ot id rest := by
          cases hh : isOutlierEvent ot e <;>
            simp [nonOutlierCountFor, List.filter_cons, hh] <;> omega
        rw [hcf]
        have := hupd (alookup a₀.classes id)
        simp only [classTotal] at this ⊢
        omega
      · rw [alookup_alupd_other _ _ _ _ hid]
        have hcf : nonOutlierCountFor ot id ((e, id', fp) :: rest) =
            nonOutlierCountFor ot id rest := by
          have : ¬ (id' = id) := fun hh => hid hh.symm
          cases hh : isOutlierEvent ot e <;>
            simp [nonOutlierCountFor, List.filter_cons, hh, this]
        rw [hcf]
    · intro id
      rw [g7 id, Aggregator.addEvent_classes]
      by_cases hid : id = id'
      · subst hid
        rw [alookup_alupd_self]
        have hcf : outlierCountFor ot id ((e, id, fp) :: rest) =
            (if isOutlierEvent ot e then 1 else 0) + outlierCountFor ot id rest := by
          cases hh : isOutlierEvent ot e <;>
            simp [outlierCountFor, List.filter_cons, hh] <;> omega
        rw [hcf]
        have := hupdO (alookup a₀.classes id)
        simp only [classOutliers] at this ⊢
        omega
      · rw [alookup_alupd_other _ _ _ _ hid]
        have hcf : outlierCountFor ot id ((e, id', fp) :: rest) =
            outlierCountFor ot id rest := by
          have : ¬ (id' = id) := fun hh => hid hh.symm
          cases hh : isOutlierEvent ot e <;>
            simp [outlierCountFor, List.filter_cons, hh, this]
        rw [hcf]

theorem Aggregator.finalize_Global_TotalQueries (a : Aggregator) :
    a.finalize.Global.TotalQueries = (a.global.finalize a.rateLimit).TotalQueries := rfl

theorem Aggregator.finalize_Classes (a : Aggregator) :
    a.finalize.Classes = a.classes.map (fun kv =>
      (kv.1, { kv.2.finalize a.rateLimit with UniqueQueries := 1 })) := rfl

theorem alookup_finalize_classes (a : Aggregator) (id : GoStr) :
    alookup a.finalize.Classes id = (alookup a.classes id).map
      (fun c => { c.finalize a.rateLimit with UniqueQueries := 1 }) := by
  rw [Aggregator.finalize_Classes]
  exact alookup_map (fun c => { c.finalize a.rateLimit with UniqueQueries := 1 }) a.classes id

/-- C4: after any sequence of `Aggregator.AddEvent` calls and one
`Finalize`, the global class's `TotalQueries` equals the sum of the per-id
classes' `TotalQueries`; moreover it equals
`(non-outlier count) * R + (outlier count)` for the shared effective rate
limit `R`, and every per-id class satisfies the same equation for its own
events. -/
theorem claim_C4 (samples : Bool) (ot : ℚ) (es : List (Event × GoStr × GoStr)) :
    (buildAggregator samples ot es).finalize.Global.TotalQueries =
      (((buildAggregator samples ot es).finalize.Classes).map
        (fun kv => kv.2.TotalQueries)).sum ∧
    (buildAggregator samples ot es).finalize.Global.TotalQueries =
      nonOutlierCount ot es *
        (if (buildAggregator samples ot es).rateLimit = 0 then 1
         else (buildAggregator samples ot es).rateLimit) + outlierCount ot es ∧
    (∀ id c, alookup (buildAggregator samples ot es).finalize.Classes id = some c →
      c.TotalQueries = nonOutlierCountFor ot id es *
        (if (buildAggregator samples ot es).rateLimit = 0 then 1
         else (buildAggregator samples ot es).rateLimit) + outlierCountFor ot id es) := by
  have h₀ : (NewAggregator samples ot).outlierTime = ot := rfl
  obtain ⟨g1, g2, g3, g4, g5, g6, g7⟩ := foldAggregator_inv ot es (NewAggregator samples ot) h₀
  have hbuild : buildAggregator samples ot es =
      es.foldl (fun a t => a.addEvent t.1 t.2.1 t.2.2) (NewAggregator samples ot) := rfl
  rw [hbuild] at *
  have hgT : (es.foldl (fun a t => a.addEvent t.1 t.2.1 t.2.2)
      (NewAggregator samples ot)).global.TotalQueries = nonOutlierCount ot es := by
    rw [g2]; simp [NewAggregator, NewClass]
  have hgO : (es.foldl (fun a t => a.addEvent t.1 t.2.1 t.2.2)
      (NewAggregator samples ot)).global.outliers = outlierCount ot es := by
    rw [g3]; simp [NewAggregator, NewClass]
  have hcT : ((es.foldl (fun a t => a.addEvent t.1 t.2.1 t.2.2)
      (NewAggregator samples ot)).classes.map (fun kv => kv.2.TotalQueries)).sum =
      nonOutlierCount ot es := by
    rw [g4]; simp [NewAggregator, NewClass]
  have hcO : ((es.foldl (fun a t => a.addEvent t.1 t.2.1 t.2.2)
      (NewAggregator samples ot)).classes.map (fun kv => kv.2.outliers)).sum =
      outlierCount ot es := by
    rw [g5]; simp [NewAggregator, NewClass]
  refine ⟨?_, ?_, ?_⟩
  · rw [Aggregator.finalize_Global_TotalQueries, Class.finalize_TotalQueries,
      Aggregator.finalize_Classes, List.map_map]
    have hpt : ((es.foldl (fun a t => a.addEvent t.1 t.2.1 t.2.2)
        (NewAggregator samples ot)).classes.map
          ((fun kv => kv.2.TotalQueries) ∘ (fun kv : GoStr × Class =>
            (kv.1, { kv.2.finalize (es.foldl (fun a t => a.addEvent t.1 t.2.1 t.2.2)
              (NewAggregator samples ot)).rateLimit with UniqueQueries := 1 })))).sum =
        ((es.foldl (fun a t => a.addEvent t.1 t.2.1 t.2.2)
          (NewAggregator samples ot)).classes.map (fun kv =>
            kv.2.TotalQueries *
              (if (es.foldl (fun a t => a.addEvent t.1 t.2.1 t.2.2)
                  (NewAggregator samples ot)).rateLimit = 0 then 1
               else (es.foldl (fun a t => a.addEvent t.1 t.2.1 t.2.2)
                  (NewAggregator samples ot)).rateLimit) + kv.2.outliers)).sum := by
      apply congrArg
      apply List.map_congr_left
      intro kv _
      show (kv.2.finalize _).TotalQueries = _
      rw [Class.finalize_TotalQueries]
    rw [hpt, sum_map_linear, hgT, hgO, hcT, hcO]
  · rw [Aggregator.finalize_Global_TotalQueries, Class.finalize_TotalQueries, hgT, hgO]
  · intro id c hc
    rw [alookup_finalize_classes] at hc
    cases hl : alookup (es.foldl (fun a t => a.addEvent t.1 t.2.1 t.2.2)
        (NewAggregator samples ot)).classes id with
    | none => rw [hl] at hc; simp at hc
    | some c₀ =>
      rw [hl] at hc
      simp at hc
      have hT : c₀.TotalQueries = nonOutlierCountFor ot id es := by
        have := g6 id
        rw [hl] at this
        simpa [classTotal, alookup] using this
      have hO : c₀.outliers = outlierCountFor ot id es := by
        have := g7 id
        rw [hl] at this
        simpa [classOutliers, alookup] using this
      rw [← hc]
      show (c₀.finalize _).TotalQueries = _
      rw [Class.finalize_TotalQueries, hT, hO]

def c4es : List (Event × GoStr × GoStr) :=
  [(wEvent1, str "a", str "fp"), (wEvent2, str "a", str "fp")]

theorem claim_C4_witness :
    ((alookup (buildAggregator true 0 c4es).finalize.Classes (str "a")).getD
      (NewClass [] [] false)).TotalQueries =
      nonOutlierCountFor 0 (str "a") c4es *
        (if (buildAggregator true 0 c4es).rateLimit = 0 then 1
         else (buildAggregator true 0 c4es).rateLimit) +
        outlierCountFor 0 (str "a") c4es :=
  (claim_C4 true 0 c4es).2.2 (str "a") _ (opt_eq_some_getD _ _ (by decide))

/-! ### Claim C8 -/

/-- The example stored by the sampling branch of `Class.AddEvent` when the
event becomes the new example: the query text is truncated to
`MAX_EXAMPLE_BYTES - 3` with `"..."` appended iff it exceeds
`MAX_EXAMPLE_BYTES`. -/
theorem addEvent_Example_Query (c : Class) (e : Event) (o : Bool) (ex : Example) (n : ℚ)
    (hsample : c.sample = true) (hex : c.Example = some ex)
    (hqt : alookup e.TimeMetrics (str "Query_time") = some n) (hgt : n > ex.QueryTime) :
    ((c.addEvent e o).Example.map (fun x => x.Query)).getD [] =
      (if e.Query.length > MAX_EXAMPLE_BYTES then
        e.Query.take (MAX_EXAMPLE_BYTES - 3) ++ str "..." else e.Query) := by
  have hmeta : ∀ (c' : Class), (c'.metaUpdate e).Example = c'.Example := by
    intro c'
    simp only [Class.metaUpdate]
    repeat' split
    all_goals rfl
  have hsam : ∀ (c' : Class), c'.sample = true → c'.Example = some ex →
      ((c'.sampleUpdate e).Example.map (fun x => x.Query)).getD [] =
        (if e.Query.length > MAX_EXAMPLE_BYTES then
          e.Query.take (MAX_EXAMPLE_BYTES - 3) ++ str "..." else e.Query) := by
    intro c' hs hx
    simp [Class.sampleUpdate, hs, hx, hqt, hgt]
  simp only [Class.addEvent]
  rw [hmeta]
  apply hsam
  · cases o <;> split <;> simp [hsample]
  · cases o <;> split <;> simp [hex]

/-- C8: when an event becomes the new example of a sampling class, the
stored `Example.Query` is at most `MAX_EXAMPLE_BYTES` long; a query longer
than `MAX_EXAMPLE_BYTES` is cut to `MAX_EXAMPLE_BYTES - 3` with `"..."`
appended (exactly `MAX_EXAMPLE_BYTES` long, ending in `"..."`); a shorter
query is stored unchanged. -/
theorem claim_C8 (c : Class) (e : Event) (o : Bool) (ex : Example) (n : ℚ)
    (hsample : c.sample = true) (hex : c.Example = some ex)
    (hqt : alookup e.TimeMetrics (str "Query_time") = some n) (hgt : n > ex.QueryTime) :
    (((c.addEvent e o).Example.map (fun x => x.Query)).getD []).length ≤ MAX_EXAMPLE_BYTES ∧
    (e.Query.length > MAX_EXAMPLE_BYTES →
      (((c.addEvent e o).Example.map (fun x => x.Query)).getD []).length = MAX_EXAMPLE_BYTES ∧
      (((c.addEvent e o).Example.map (fun x => x.Query)).getD []).drop
        (MAX_EXAMPLE_BYTES - 3) = str "..." ∧
      ((c.addEvent e o).Example.map (fun x => x.Query)).getD [] =
        e.Query.take (MAX_EXAMPLE_BYTES - 3) ++ str "...") ∧
    (e.Query.length ≤ MAX_EXAMPLE_BYTES →
      ((c.addEvent e o).Example.map (fun x => x.Query)).getD [] = e.Query) := by
  rw [addEvent_Example_Query c e o ex n hsample hex hqt hgt]
  by_cases hlen : e.Query.length > MAX_EXAMPLE_BYTES
  · have htake : (e.Query.take (MAX_EXAMPLE_BYTES - 3)).length = MAX_EXAMPLE_BYTES - 3 := by
      rw [List.length_take]
      omega
    have hdots : (str "...").length = 3 := rfl
    refine ⟨?_, fun _ => ⟨?_, ?_, ?_⟩, fun hle => ?_⟩
    · rw [if_pos hlen, List.length_append, htake, hdots]
      simp [MAX_EXAMPLE_BYTES]
    · rw [if_pos hlen, List.length_append, htake, hdots]
      simp [MAX_EXAMPLE_BYTES]
    · rw [if_pos hlen]
      have hd := List.drop_left (List.take (MAX_EXAMPLE_BYTES - 3) e.Query) (str "...")
      rw [htake] at hd
      exact hd
    · rw [if_pos hlen]
    · omega
  · refine ⟨?_, fun hgtl => absurd hgtl hlen, fun _ => ?_⟩
    · rw [if_neg hlen]
      omega
    · rw [if_neg hlen]

def c8Class : Class := NewClass (str "x") (str "f") true

def c8Event : Event :=
  { NewEvent with TimeMetrics := [(str "Query_time", 2)], Query := str "select 1" }

theorem claim_C8_witness :
    (((c8Class.addEvent c8Event false).Example.map (fun x => x.Query)).getD
      []).length ≤ MAX_EXAMPLE_BYTES ∧
    (c8Event.Query.length > MAX_EXAMPLE_BYTES →
      (((c8Class.addEvent c8Event false).Example.map (fun x => x.Query)).getD
        []).length = MAX_EXAMPLE_BYTES ∧
      (((c8Class.addEvent c8Event false).Example.map (fun x => x.Query)).getD
        []).drop (MAX_EXAMPLE_BYTES - 3) = str "..." ∧
      ((c8Class.addEvent c8Event false).Example.map (fun x => x.Query)).getD [] =
        c8Event.Query.take (MAX_EXAMPLE_BYTES - 3) ++ str "...") ∧
    (c8Event.Query.length ≤ MAX_EXAMPLE_BYTES →
      ((c8Class.addEvent c8Event false).Example.map (fun x => x.Query)).getD [] =
        c8Event.Query) :=
  claim_C8 c8Class c8Event false ⟨0, [], [], []⟩ 2 (by decide) (by decide)
    (by decide) (by norm_num)

/-! ### The slow-log parser (`slowlog.go`)

The parser's regular expressions are embedded as specialised matchers with
RE2's leftmost-first semantics (greedy and lazy quantifier preference is
realised by explicit candidate enumeration). -/

def goSpace (c : Char) : Bool :=
  c = ' ' || c = '\t' || c = '\n' || c = Char.ofNat 12 || c = '\r'

def goWordChar (c : Char) : Bool := c.isAlphanum || c = '_'

def goUpper (c : Char) : Bool := 'A' ≤ c && c ≤ 'Z'

/-- `lsw l pat`: `l` starts with `pat` (Go `strings.HasPrefix`). -/
def lsw : GoStr → GoStr → Bool
  | _, [] => true
  | [], _ :: _ => false
  | c :: cs, p :: ps => c = p && lsw cs ps

def lendsWith (l suf : GoStr) : Bool := lsw l.reverse suf.reverse

/-- Go `strings.TrimSuffix`: removes one occurrence of the suffix. -/
def goTrimEnd (l suf : GoStr) : GoStr :=
  if lendsWith l suf then l.take (l.length - suf.length) else l

/-- Go `strings.TrimRight(db, ";")`: removes every trailing `;`. -/
def trimRightSemis (l : GoStr) : GoStr :=
  (l.reverse.dropWhile (fun c => c = ';')).reverse

/-- Go `strings.Trim(db, "\x60")`: backticks stripped from both ends. -/
def trimBackticks (l : GoStr) : GoStr :=
  let bt := Char.ofNat 96
  ((l.dropWhile (fun c => c = bt)).reverse.dropWhile (fun c => c = bt)).reverse

def firstSome {α : Type} : List (Option α) → Option α
  | [] => none
  | some a :: _ => some a
  | none :: rest => firstSome rest

/-- `headerRe`: `^#\s+[A-Z]`. -/
def isHeaderLine (l : GoStr) : Bool :=
  match l with
  | '#' :: rest =>
    let sp := rest.takeWhile goSpace
    !sp.isEmpty &&
      (match rest.drop sp.length with
       | c :: _ => goUpper c
       | [] => false)
  | _ => false

/-- The tail of `timeRe` after the literal `Time: `: `(\S+\s{1,2}\S+)`.
`\S+` is forced maximal (the classes are disjoint) and `\s{1,2}` admits a
run of exactly one or two spaces before the second token. -/
def timeTail (r : GoStr) : Option GoStr :=
  let t1 := r.takeWhile (fun c => !goSpace c)
  if t1.isEmpty then none
  else
    let r1 := r.drop t1.length
    let sp := r1.takeWhile goSpace
    if sp.length = 0 || 2 < sp.length then none
    else
      let r2 := r1.drop sp.length
      let t2 := r2.takeWhile (fun c => !goSpace c)
      if t2.isEmpty then none else some (t1 ++ sp ++ t2)

/-- `timeRe.FindStringSubmatch`: leftmost `Time: ` whose tail matches. -/
def timeScan : GoStr → Option GoStr
  | [] => none
  | l@(_ :: rest) =>
    match (if lsw l (str "Time: ") then timeTail (l.drop 6) else none) with
    | some ts => some ts
    | none => timeScan rest

/-- The `.*?@ (\S*) \[(.*)\]` tail of `userRe`: the lazy star extends to
each later position; the host is a maximal nonspace run followed by
a space and `[`, with a closing `]` somewhere after. -/
def userCont : GoStr → Option GoStr
  | [] => none
  | r@(_ :: rest) =>
    match (if lsw r (str "@ ") then
        let r2 := r.drop 2
        let host := r2.takeWhile (fun c => !goSpace c)
        let r3 := r2.drop host.length
        if lsw r3 (str " [") then
          (if (r3.drop 2).contains ']' then some host else none)
        else none
      else none) with
    | some h => some h
    | none => userCont rest

/-- Group 1 of `userRe`, `([^\[]+|\[[^[]+\])`, leftmost-first across the
alternatives and greedy (longest candidate first) within each, paired with
the continuation `userCont`.  Returns (user, host). -/
def userTail (r : GoStr) : Option (GoStr × GoStr) :=
  let run := r.takeWhile (fun c => c ≠ '[')
  let cand1 : List (Option (GoStr × GoStr)) :=
    (List.range run.length).map (fun k =>
      let nn := run.length - k
      (userCont (r.drop nn)).map (fun h => (r.take nn, h)))
  let cand2 : List (Option (GoStr × GoStr)) :=
    match r with
    | '[' :: r2 =>
      let run2 := r2.takeWhile (fun c => c ≠ '[')
      (List.range run2.length).map (fun k =>
        let nn := run2.length - k
        match r2.drop nn with
        | ']' :: r3 => (userCont r3).map (fun h => ('[' :: (r2.take nn ++ [']']), h))
        | _ => none)
    | _ => []
  firstSome (cand1 ++ cand2)

/-- `userRe.FindStringSubmatch`: leftmost `User@Host: ` whose tail
matches. -/
def userScan : GoStr → Option (GoStr × GoStr)
  | [] => none
  | l@(_ :: rest) =>
    match (if lsw l (str "User@Host: ") then userTail (l.drop 11) else none) with
    | some uh => some uh
    | none => userScan rest

/-- The lazy `(.*?) +Last_errno:` part of the `schema` regex: the shortest
capture followed by one-or-more spaces and the literal. -/
def schemaCapture : GoStr → Option GoStr
  | [] => none
  | r@(c :: rest) =>
    let sp := r.takeWhile (fun c => c = ' ')
    if !sp.isEmpty && lsw (r.drop sp.length) (str "Last_errno:") then some []
    else (schemaCapture rest).map (fun cap => c :: cap)

/-- The ` +(.*?) +Last_errno:` tail of the `schema` regex after the
literal `Schema:`: the leading space run is consumed greedily, giving back
on backtracking. -/
def schemaTail (r : GoStr) : Option GoStr :=
  let sp := r.takeWhile (fun c => c = ' ')
  if sp.isEmpty then none
  else firstSome ((List.range sp.length).map (fun k =>
    schemaCapture (r.drop (sp.length - k))))

/-- `schema.FindStringSubmatch`: leftmost `Schema:` whose tail matches. -/
def schemaScan : GoStr → Option GoStr
  | [] => none
  | l@(_ :: rest) =>
    match (if lsw l (str "Schema:") then schemaTail (l.drop 7) else none) with
    | some db => some db
    | none => schemaScan rest

/-- `metricsRe.FindAllStringSubmatch` for `(\w+): (\S+|\z)`:
non-overlapping leftmost matches, scanning resumes after each match.  The
fuel argument (initialised above the input length, and decreased on every
call while the input also shrinks) makes the recursion structural. -/
def findMetricsAux : Nat → GoStr → List (GoStr × GoStr)
  | 0, _ => []
  | _, [] => []
  | fuel + 1, l@(c :: rest) =>
    if goWordChar c then
      let w := l.takeWhile goWordChar
      match l.drop w.length with
      | ':' :: ' ' :: r2 =>
        let v := r2.takeWhile (fun c => !goSpace c)
        if !v.isEmpty then (w, v) :: findMetricsAux fuel (r2.drop v.length)
        else if r2.isEmpty then [(w, [])]
        else findMetricsAux fuel r2
      | r1 => findMetricsAux fuel r1
    else findMetricsAux fuel rest

def findMetrics (l : GoStr) : List (GoStr × GoStr) := findMetricsAux (l.length + 1) l

/-- `adminRe.FindStringSubmatch` for `command: (.+)`: the capture is the
non-empty remainder of the line after the leftmost `command: `. -/
def adminScan : GoStr → Option GoStr
  | [] => none
  | l@(_ :: rest) =>
    match (if lsw l (str "command: ") then
        (if (l.drop 9).isEmpty then none else some (l.drop 9))
      else none) with
    | some cap => some cap
    | none => adminScan rest

/-- `useRe.FindString` for `^(?i)use `: the matched text (the line's own
first four characters) when the line starts with case-insensitive `use `. -/
def useMatch (l : GoStr) : Option GoStr :=
  match l with
  | c1 :: c2 :: c3 :: c4 :: _ =>
    if c1.toLower = 'u' && c2.toLower = 's' && c3.toLower = 'e' && c4 = ' ' then
      some [c1, c2, c3, c4]
    else none
  | _ => none

/-- `setRe`: `^SET (?:last_insert_id|insert_id|timestamp)`. -/
def isSetLine (l : GoStr) : Bool :=
  lsw l (str "SET ") &&
    (lsw (l.drop 4) (str "last_insert_id") || lsw (l.drop 4) (str "insert_id") ||
      lsw (l.drop 4) (str "timestamp"))

def digitsToNat (ds : GoStr) : Nat := ds.foldl (fun n c => n * 10 + (c.toNat - 48)) 0

/-- Model of `strconv.ParseFloat(v, 32)` for the decimal forms appearing in
slow logs (`[0-9]+` optionally `.` `[0-9]+`); any other form yields 0, as
the Go code ignores the parse error.  Binary rounding is not modelled. -/
def parseFloatQ (v : GoStr) : ℚ :=
  let ip := v.takeWhile (fun c => c.isDigit)
  let rest := v.drop ip.length
  if ip.isEmpty then 0
  else
    match rest with
    | [] => (digitsToNat ip : ℚ)
    | '.' :: fr =>
      if !fr.isEmpty && fr.all (fun c => c.isDigit) then
        (digitsToNat ip : ℚ) + (digitsToNat fr : ℚ) / ((10 : ℚ) ^ fr.length)
      else 0
    | _ => 0

/-- Model of `strconv.ParseUint(v, 10, 64)` with the error ignored: a
syntax error yields 0, overflow saturates at `2^64 - 1`. -/
def parseUintG (v : GoStr) : Nat :=
  if !v.isEmpty && v.all (fun c => c.isDigit) then
    let n := digitsToNat v
    if n < 2 ^ 64 then n else 2 ^ 64 - 1
  else 0

/-- The parser `Options`.  `FilterAdminCommand` is the set of keys the Go
`map[string]bool` maps to true. -/
structure Options where
  StartOffset : Nat
  FilterAdminCommand : List GoStr
  deriving DecidableEq

/-- The mutable fields of `FileParser` that drive parsing. -/
structure PState where
  inHeader : Bool
  inQuery : Bool
  headerLines : Nat
  queryLines : Nat
  bytesRead : Nat
  lineOffset : Nat
  event : Event
  deriving DecidableEq

/-- Result of processing a line: successor state, events emitted during the
line (in order), and whether the parser panicked (recovered in `parse` as a
terminal error, ending the stream). -/
structure StepRes where
  st : PState
  out : List Event
  crash : Bool
  deriving DecidableEq

def initPState (opt : Options) : PState :=
  { inHeader := false, inQuery := false, headerLines := 0, queryLines := 0,
    bytesRead := opt.StartOffset, lineOffset := 0, event := NewEvent }

/-- `FileParser.sendEvent`: a missing `Query_time` panics when headers were
seen and discards silently otherwise; the emitted event has `;\n` trimmed
from `db` and `;` from `query`; the deferred block resets the per-event
state and moves to the caller-selected mode. -/
def sendEvent (st : PState) (inH inQ : Bool) : StepRes :=
  let reset : PState :=
    { st with
      event := NewEvent, headerLines := 0, queryLines := 0,
      inHeader := inH, inQuery := inQ }
  match alookup st.event.TimeMetrics (str "Query_time") with
  | none =>
    if st.headerLines = 0 then ⟨st, [], true⟩
    else ⟨reset, [], false⟩
  | some _ =>
    let ev := { st.event with
      Db := goTrimEnd st.event.Db (str ";\n"),
      Query := goTrimEnd st.event.Query (str ";") }
    ⟨reset, [ev], false⟩

/-- `FileParser.parseAdmin`: set `admin`, capture the command name, strip a
trailing `;`; a filtered command resets the mode flags without clearing the
event, an unfiltered one is sent immediately.  (A line without `command: `
would make the Go code index a nil slice: modelled as a crash.) -/
def parseAdmin (opt : Options) (st : PState) (line : GoStr) : StepRes :=
  let st := { st with event := { st.event with Admin := true } }
  match adminScan line with
  | none => ⟨st, [], true⟩
  | some cap =>
    let q := goTrimEnd cap (str ";")
    let st := { st with event := { st.event with Query := q } }
    if opt.FilterAdminCommand.contains q then
      ⟨{ st with inHeader := false, inQuery := false }, [], false⟩
    else sendEvent st false false

/-- The dispatch of one `(metric, value)` pair found by `metricsRe` in
`FileParser.parseHeader`. -/
def applyMetric (e : Event) (kv : GoStr × GoStr) : Event :=
  if lendsWith kv.1 (str "_time") || lendsWith kv.1 (str "_wait") then
    { e with TimeMetrics := alupd e.TimeMetrics kv.1 (fun _ => parseFloatQ kv.2) }
  else if kv.2 = str "Yes" || kv.2 = str "No" then
    { e with BoolMetrics := alupd e.BoolMetrics kv.1 (fun _ => decide (kv.2 = str "Yes")) }
  else if kv.1 = str "Schema" then { e with Db := kv.2 }
  else if kv.1 = str "Log_slow_rate_type" then { e with RateType := kv.2 }
  else if kv.1 = str "Log_slow_rate_limit" then { e with RateLimit := parseUintG kv.2 }
  else if kv.1 = str "InnoDB_trx_id" then e
  else { e with NumberMetrics := alupd e.NumberMetrics kv.1 (fun _ => parseUintG kv.2) }

/-- The body of `FileParser.parseHeader` after its `headerRe` re-check
(which the callers below perform): record the event offset on the first
header line, then dispatch on the line's shape. -/
def parseHeader0 (opt : Options) (st : PState) (line : GoStr) : StepRes :=
  let st := if st.headerLines = 0 then
      { st with event := { st.event with Offset := st.lineOffset } }
    else st
  let st := { st with headerLines := st.headerLines + 1 }
  if lsw line (str "# Time") then
    match timeScan line with
    | none => ⟨st, [], false⟩
    | some ts =>
      let st := { st with event := { st.event with Ts := ts } }
      match userScan line with
      | some uh =>
        ⟨{ st with event := { st.event with User := uh.1, Host := uh.2 } }, [], false⟩
      | none => ⟨st, [], false⟩
  else if lsw line (str "# User") then
    match userScan line with
    | some uh =>
      ⟨{ st with event := { st.event with User := uh.1, Host := uh.2 } }, [], false⟩
    | none => ⟨st, [], false⟩
  else if lsw line (str "# admin") then
    parseAdmin opt st line
  else
    let st := match schemaScan line with
      | some db => { st with event := { st.event with Db := db } }
      | none => st
    ⟨{ st with event := (findMetrics line).foldl applyMetric st.event }, [], false⟩

/-- The query-line accumulation branch of `FileParser.parseQuery`. -/
def appendQuery (st : PState) (line : GoStr) : PState :=
  let e := if st.queryLines > 0 then
      { st.event with Query := st.event.Query ++ '\n' :: line }
    else { st.event with Query := line }
  { st with event := e, queryLines := st.queryLines + 1 }

/-- The `use`/`SET`/plain-query part of `FileParser.parseQuery` (after the
admin and header-line checks). -/
def parseQuery0 (st : PState) (line : GoStr) : PState :=
  if st.queryLines = 0 ∧ (useMatch line).isSome then
    let isUse := (useMatch line).getD []
    let db := line.drop isUse.length
    let db := trimRightSemis db
    let db := trimBackticks db
    { st with event := { st.event with Db := db, Query := line } }
  else if isSetLine line then st
  else appendQuery st line

/-- `FileParser.parseQuery`. -/
def parseQuery (opt : Options) (st : PState) (line : GoStr) : StepRes :=
  if lsw line (str "# admin") then parseAdmin opt st line
  else if isHeaderLine line then
    let st := { st with inHeader := true, inQuery := false }
    let r := sendEvent st true false
    if r.crash then r
    else
      let r2 := parseHeader0 opt r.st line
      ⟨r2.st, r.out ++ r2.out, r2.crash⟩
  else ⟨parseQuery0 st line, [], false⟩

/-- `FileParser.parseHeader`: a non-header line switches to query mode. -/
def parseHeader (opt : Options) (st : PState) (line : GoStr) : StepRes :=
  if isHeaderLine line then parseHeader0 opt st line
  else parseQuery opt { st with inHeader := false, inQuery := true } line

/-- The off-by-one adjustment of `FileParser.parse`: a non-zero
start-of-line offset is incremented by one before being stored. -/
def storedLineOffset (raw : Nat) : Nat := if raw ≠ 0 then raw + 1 else raw

/-- The meta-line filter of `FileParser.parse` (applied to the line with
its terminating newline still present). -/
def isMetaLine (l : GoStr) : Bool :=
  20 ≤ l.length &&
    ((lsw l (str "/") && decide (l.drop (l.length - 6) = str "with:\n")) ||
      lsw l (str "Time ") || lsw l (str "Tcp ") || lsw l (str "TCP "))

/-- One iteration of the scanner loop of `FileParser.parse`: account the
line's bytes, compute the stored line offset, filter meta lines, strip the
newline, and dispatch on the current mode. -/
def stepLine (opt : Options) (st : PState) (l : GoStr) : StepRes :=
  let br := st.bytesRead + l.length
  let st := { st with bytesRead := br, lineOffset := storedLineOffset (br - l.length) }
  if isMetaLine l then ⟨st, [], false⟩
  else
    let line := l.dropLast
    if st.inHeader then parseHeader opt st line
    else if st.inQuery then parseQuery opt st line
    else if isHeaderLine line then
      parseHeader0 opt { st with inHeader := true, inQuery := false } line
    else ⟨st, [], false⟩

/-- The scanner loop over the already-split lines; a crash ends the stream
with the events emitted so far. -/
def runLines (opt : Options) : PState → List GoStr → List Event × PState × Bool
  | st, [] => ([], st, false)
  | st, l :: ls =>
    let r := stepLine opt st l
    if r.crash then (r.out, r.st, true)
    else
      let k := runLines opt r.st ls
      (r.out ++ k.1, k.2.1, k.2.2)

/-- Split the input into `\n`-terminated lines; a trailing fragment without
a newline is dropped, as `bufio.ReadString` returns it together with EOF
and the scanner loop breaks without processing it. -/
def splitLinesAux : List Char → List Char → List GoStr
  | [], _ => []
  | c :: rest, acc =>
    if c = '\n' then (acc.reverse ++ ['\n']) :: splitLinesAux rest []
    else splitLinesAux rest (c :: acc)

def splitLines (l : GoStr) : List GoStr := splitLinesAux l []

/-- `FileParser.Start` + `parse`: seek to `StartOffset` (initialising the
byte counter there), run the scanner loop, and on end-of-input emit the
pending event iff at least one query line was accumulated.  Returns the
emitted events in order and whether a panic ended parsing. -/
def parseSlowLog (opt : Options) (input : GoStr) : List Event × Bool :=
  let lines := splitLines (input.drop opt.StartOffset)
  let r := runLines opt (initPState opt) lines
  if r.2.2 then (r.1, true)
  else if r.2.1.queryLines > 0 then
    let fin := sendEvent r.2.1 false false
    (r.1 ++ fin.out, fin.crash)
  else (r.1, false)

/-! ### Claim C1 -/

/-- Modelled from the spec: the test fixture `test/slow-logs/slow001.log`
is not part of the sources.  Per §8 S1 it holds two events, the first
event's header block starting at raw byte 199 (stored offset 200) and
ending at 358, the second starting at raw byte 358 (stored offset 359),
with a three-line mysqld banner in front; queries, metrics and dbs as the
reference test expects.  The byte layout reproduces every offset the
repository's tests assert (200/359 from offset 0, 383 when resuming at
359). -/
def slow001 : GoStr := str
  ("/home/jz/mysql-5.0.45/bin/mysqld, Version: 5.0.45-log (MySQL Community Server (GPL)). started with:\n" ++
   "Tcp port: 3306  Unix socket: /var/lib/mysql/mysql.sock\n" ++
   "Time                 Id Command    Argument\n" ++
   "# Time: 071015 21:43:52\n" ++
   "# User@Host: root[root] @ localhost []\n" ++
   "# Query_time: 2  Lock_time: 0  Rows_sent: 1  Rows_examined: 0\n" ++
   "use test;\n" ++
   "select sleep(2) from n;\n" ++
   "# Time: 071015 21:45:10\n" ++
   "# User@Host: root[root] @ localhost []\n" ++
   "# Query_time: 2  Lock_time: 0  Rows_sent: 1  Rows_examined: 0\n" ++
   "use sakila;\n" ++
   "select sleep(2) from test.n;\n")

/-- The first event the parser emits for `slow001`. -/
def slow001Ev1 : Event :=
  { Offset := 200, Ts := str "071015 21:43:52", Admin := false,
    Query := str "select sleep(2) from n", User := str "root",
    Host := str "localhost", Db := str "test",
    TimeMetrics := [(str "Query_time", 2), (str "Lock_time", 0)],
    NumberMetrics := [(str "Rows_sent", 1), (str "Rows_examined", 0)],
    BoolMetrics := [], RateType := [], RateLimit := 0, CommentMetadata := [] }

/-- The second event the parser emits for `slow001`. -/
def slow001Ev2 : Event :=
  { Offset := 359, Ts := str "071015 21:45:10", Admin := false,
    Query := str "select sleep(2) from test.n", User := str "root",
    Host := str "localhost", Db := str "sakila",
    TimeMetrics := [(str "Query_time", 2), (str "Lock_time", 0)],
    NumberMetrics := [(str "Rows_sent", 1), (str "Rows_examined", 0)],
    BoolMetrics := [], RateType := [], RateLimit := 0, CommentMetadata := [] }

/-- Counterexample to C1 as stated: parsing the S1 log from offset 0 does
not yield offsets 200 and 383 — the second event's stored offset is 359
(its true start 358 plus the off-by-one adjustment); 383 arises only when
resuming at `start_offset = 359`. -/
theorem claim_C1_counterexample :
    ¬ ((parseSlowLog ⟨0, []⟩ slow001).1.map (fun e => e.Offset) = [200, 383]) := by
  decide

set_option maxRecDepth 100000 in
/-- C1 as amended: parsing the S1 basic log from offset 0 yields exactly
two events with offsets 200 and 359, queries
`select sleep(2) from n` / `select sleep(2) from test.n`,
`Query_time = 2`, `Lock_time = 0`, dbs `test` / `sakila`; and the non-zero
line offset stored on an event is the start-of-line byte position
incremented by 1. -/
theorem claim_C1_amended :
    parseSlowLog ⟨0, []⟩ slow001 = ([slow001Ev1, slow001Ev2], false) ∧
    (∀ raw : Nat, storedLineOffset raw = if raw = 0 then 0 else raw + 1) := by
  constructor
  · decide
  · intro raw
    by_cases h : raw = 0 <;> simp [storedLineOffset, h]

/-! ### Claim C9 -/

/-- Modelled from the spec: the fixture `test/slow-logs/slow009.log` is not
part of the sources.  Per §8 S3 it contains one
`# administrator command: Quit;` event and one
`# administrator command: Refresh;` event, each with its own header
block. -/
def slow009 : GoStr := str
  ("# Time: 090311 18:11:50\n" ++
   "# User@Host: root[root] @ localhost []\n" ++
   "# Query_time: 0.017850  Lock_time: 0.000000\n" ++
   "# administrator command: Quit;\n" ++
   "# Time: 090311 18:11:50\n" ++
   "# User@Host: root[root] @ localhost []\n" ++
   "# Query_time: 0.017850  Lock_time: 0.000000\n" ++
   "# administrator command: Refresh;\n")

set_option maxRecDepth 100000 in
/-- C9: with `filter_admin_command = {"Quit"}` the S3 log yields exactly
one event, with `admin = true` and `query = "Refresh"`; in general an
admin command whose name (after stripping a trailing `;`) is in the filter
is never emitted, and an unfiltered admin command is emitted immediately
by `parseAdmin` (one event, `admin = true`, the stripped name as query). -/
theorem claim_C9 :
    ((parseSlowLog ⟨0, [str "Quit"]⟩ slow009).1.map (fun e => (e.Admin, e.Query)) =
        [(true, str "Refresh")] ∧
      (parseSlowLog ⟨0, [str "Quit"]⟩ slow009).2 = false) ∧
    (∀ (opt : Options) (st : PState) (line cap : GoStr),
      adminScan line = some cap →
      (opt.FilterAdminCommand.contains (goTrimEnd cap (str ";")) = true →
        (parseAdmin opt st line).out = [] ∧ (parseAdmin opt st line).crash = false) ∧
      (opt.FilterAdminCommand.contains (goTrimEnd cap (str ";")) = false →
        ∀ v, alookup st.event.TimeMetrics (str "Query_time") = some v →
          (parseAdmin opt st line).out.map (fun e => (e.Admin, e.Query)) =
            [(true, goTrimEnd (goTrimEnd cap (str ";")) (str ";"))] ∧
          (parseAdmin opt st line).crash = false)) := by
  constructor
  · constructor
    · decide
    · decide
  · intro opt st line cap hcap
    constructor
    · intro hfilt
      have hmem : goTrimEnd cap (str ";") ∈ opt.FilterAdminCommand := by
        simpa using hfilt
      simp [parseAdmin, hcap, hmem]
    · intro hfilt v hv
      have hmem : ¬ (goTrimEnd cap (str ";") ∈ opt.FilterAdminCommand) := by
        simpa using hfilt
      simp [parseAdmin, hcap, hmem, sendEvent, hv]

def c9StFiltered : PState := initPState ⟨0, []⟩

def c9StUnfiltered : PState :=
  { initPState ⟨0, []⟩ with
    event := { NewEvent with TimeMetrics := [(str "Query_time", 2)] },
    headerLines := 1 }

theorem claim_C9_witness :
    ((parseAdmin ⟨0, [str "Quit"]⟩ c9StFiltered
        (str "# administrator command: Quit;")).out = [] ∧
      (parseAdmin ⟨0, [str "Quit"]⟩ c9StFiltered
        (str "# administrator command: Quit;")).crash = false) ∧
    ((parseAdmin ⟨0, []⟩ c9StUnfiltered
        (str "# administrator command: Refresh;")).out.map (fun e => (e.Admin, e.Query)) =
        [(true, str "Refresh")] ∧
      (parseAdmin ⟨0, []⟩ c9StUnfiltered
        (str "# administrator command: Refresh;")).crash = false) :=
  ⟨(claim_C9.2 ⟨0, [str "Quit"]⟩ c9StFiltered
      (str "# administrator command: Quit;") (str "Quit;") (by decide)).1 (by decide),
   (claim_C9.2 ⟨0, []⟩ c9StUnfiltered
      (str "# administrator command: Refresh;") (str "Refresh;") (by decide)).2
      (by decide) 2 (by decide)⟩

/-! ### Claim C10 -/

/-- A log whose final event consists of header lines followed only by a
`use` line and a filtered `SET` line: nothing is emitted for it at
end-of-input. -/
def slow010 : GoStr := str
  ("# Time: 071015 21:43:52\n" ++
   "# Query_time: 1  Lock_time: 0\n" ++
   "select 1;\n" ++
   "# Time: 071015 21:45:10\n" ++
   "# Query_time: 1  Lock_time: 0\n" ++
   "use test;\n" ++
   "SET timestamp=123;\n")

/-- The only event emitted for `slow010`. -/
def slow010Ev : Event :=
  { Offset := 0, Ts := str "071015 21:43:52", Admin := false,
    Query := str "select 1", User := [], Host := [], Db := [],
    TimeMetrics := [(str "Query_time", 1), (str "Lock_time", 0)],
    NumberMetrics := [], BoolMetrics := [], RateType := [], RateLimit := 0,
    CommentMetadata := [] }

set_option maxRecDepth 100000 in
/-- C10: a final event consisting of headers followed only by `use` and/or
filtered `SET` lines is not emitted at end-of-input: concretely `slow010`
yields only its first event; in general the `use` and `SET` branches of
`parseQuery` leave the query-line counter unchanged, and the end-of-input
emission fires only when that counter is positive (with a zero counter the
output is exactly the scanner loop's). -/
theorem claim_C10 :
    parseSlowLog ⟨0, []⟩ slow010 = ([slow010Ev], false) ∧
    (∀ (st : PState) (line : GoStr),
      (((useMatch line).isSome ∧ st.queryLines = 0) ∨ isSetLine line = true) →
      (parseQuery0 st line).queryLines = st.queryLines) ∧
    (∀ (opt : Options) (input : GoStr),
      (runLines opt (initPState opt) (splitLines (input.drop opt.StartOffset))).2.1.queryLines = 0 →
      (runLines opt (initPState opt) (splitLines (input.drop opt.StartOffset))).2.2 = false →
      parseSlowLog opt input =
        ((runLines opt (initPState opt) (splitLines (input.drop opt.StartOffset))).1, false)) := by
  refine ⟨by decide, ?_, ?_⟩
  · intro st line h
    rcases h with ⟨huse, hql⟩ | hset
    · obtain ⟨u, hu⟩ := Option.isSome_iff_exists.mp huse
      simp [parseQuery0, hql, hu]
    · by_cases hu : st.queryLines = 0 ∧ (useMatch line).isSome
      · obtain ⟨u, huu⟩ := Option.isSome_iff_exists.mp hu.2
        simp [parseQuery0, hu.1, huu]
      · simp [parseQuery0, hu, hset]
  · intro opt input hql hcr
    simp [parseSlowLog, hql, hcr]

theorem claim_C10_witness :
    (parseQuery0 (initPState ⟨0, []⟩) (str "use test;")).queryLines =
      (initPState ⟨0, []⟩).queryLines ∧
    parseSlowLog ⟨0, []⟩ [] =
      ((runLines ⟨0, []⟩ (initPState ⟨0, []⟩)
        (splitLines (([] : GoStr).drop 0))).1, false) :=
  ⟨claim_C10.2.1 (initPState ⟨0, []⟩) (str "use test;")
      (Or.inl ⟨by decide, by decide⟩),
   claim_C10.2.2 ⟨0, []⟩ [] (by decide) (by decide)⟩

end Slowlog
